import Mathlib

/-!
Verification development for the dbun terminal database browser.

The Go source is embedded shallowly:
* Go strings are `List Char` (`Str`); Go indexes strings by byte, the model by
  character, which agrees on ASCII data (noted at each definition it affects).
* Go `int` is `Int`; slice/array accesses that can panic are modelled with
  `Option` (`none` = runtime panic).
* Go maps (`map[string][]RowData`, `RowData = map[string]interface{}`) are
  association lists; reading an absent key yields the zero value (`nil`,
  modelled as `CellValue.null`) exactly as a Go map read does.
* `float64` values are modelled as exact rationals `ℚ`; IEEE rounding is not
  modelled (no claim below depends on a float's numeric value or display).
-/

namespace Dbun

/-- Go strings, at character granularity. -/
abbrev Str := List Char

/-- ASCII decimal digit test (byte range 48–57). -/
def isDigitChar (c : Char) : Bool := 48 ≤ c.toNat && c.toNat ≤ 57

/-- Numeric value of a digit character. -/
def digitVal (c : Char) : Nat := c.toNat - 48

/-- Decimal value of a digit list (most significant first). -/
def digitsToNat (ds : Str) : Nat := ds.foldl (fun a c => a * 10 + digitVal c) 0

/-- Split an optional leading sign; returns (isNegative, rest).
Mirrors the sign handling of Go `strconv`. -/
def splitSign : Str → Bool × Str
  | '-' :: r => (true, r)
  | '+' :: r => (false, r)
  | s => (false, s)

/-- Embeds `ParseInt` (src/run.sh:2834), i.e. Go `strconv.Atoi`:
optional sign, one or more decimal digits, nothing else, and the value must
fit in a 64-bit `int` (out-of-range input is an error, hence `none`). -/
def ParseInt (s : Str) : Option Int :=
  match splitSign s with
  | (neg, ds) =>
    if ds = [] then none
    else if ds.all isDigitChar then
      let v : Int := if neg then -(digitsToNat ds : Int) else (digitsToNat ds : Int)
      if v < -(2 ^ 63) ∨ v > 2 ^ 63 - 1 then none else some v
    else none

/-- Embeds `ParseFloat` (src/run.sh:2838), i.e. Go `strconv.ParseFloat(s, 64)`,
restricted to the decimal forms `[sign] digits [. digits] [e|E [sign] digits]`
with at least one mantissa digit.  Deviations, none of which any claim below
depends on: the value is the exact rational rather than the IEEE-rounded
float64, and the special forms (inf, nan, hex floats) are not modelled. -/
def ParseFloat (s : Str) : Option ℚ :=
  if s = [] then none else
  let p := splitSign s
  let t := p.2
  let intPart := t.takeWhile isDigitChar
  let r1 := t.dropWhile isDigitChar
  let fp : Str × Str :=
    match r1 with
    | '.' :: r => (r.takeWhile isDigitChar, r.dropWhile isDigitChar)
    | _ => ([], r1)
  if intPart = [] ∧ fp.1 = [] then none else
  let mant : ℚ := (digitsToNat intPart : ℚ) + (digitsToNat fp.1 : ℚ) / ((10 : ℚ) ^ fp.1.length)
  let signed : ℚ := if p.1 then -mant else mant
  match fp.2 with
  | [] => some signed
  | e :: r =>
    if e = 'e' ∨ e = 'E' then
      let q := splitSign r
      let expDigits := q.2.takeWhile isDigitChar
      if expDigits = [] ∨ q.2.dropWhile isDigitChar ≠ [] then none
      else some (if q.1 then signed / (10 : ℚ) ^ digitsToNat expDigits
                 else signed * (10 : ℚ) ^ digitsToNat expDigits)
    else none

/-- ASCII lowercasing of one character; embeds the effect of Go
`strings.ToLower` on the ASCII inputs this program compares against. -/
def toLowerChar (c : Char) : Char :=
  if 65 ≤ c.toNat ∧ c.toNat ≤ 90 then Char.ofNat (c.toNat + 32) else c

/-- Embeds `strings.ToLower` (ASCII range; the type keywords and literals the
program compares against are all ASCII). -/
def toLowerStr (s : Str) : Str := s.map toLowerChar

/-- Does `sub` occur as a prefix of `s`?  Helper for `containsStr`. -/
def hasPrefixStr : Str → Str → Bool
  | _, [] => true
  | [], _ :: _ => false
  | c :: cs, d :: ds => c = d && hasPrefixStr cs ds

/-- Embeds Go `strings.Contains s sub`: `sub` occurs contiguously in `s`. -/
def containsStr : Str → Str → Bool
  | s, sub =>
    match s with
    | [] => sub.isEmpty
    | _ :: cs => hasPrefixStr s sub || containsStr cs sub

/-- Decimal digit characters of a natural number (via core `Nat.toDigits`). -/
def natToStr (n : Nat) : Str := Nat.toDigits 10 n

/-- Decimal rendering of an `Int`, as Go `fmt.Sprintf` with a `%d` verb. -/
def intToStr (n : Int) : Str :=
  if n < 0 then '-' :: natToStr (-n).toNat else natToStr n.toNat

/-- The closed RowValue union of the spec (§3): the `interface{}` cell values
this program produces are nil, bool, integer, float64 or string. -/
inductive CellValue where
  | null
  | bool (b : Bool)
  | int (n : Int)
  | float (q : ℚ)
  | text (s : Str)
deriving DecidableEq

/-- Rendering of a float cell.  The Go source formats with the `%g` verb
(src/run.sh:2870); the model prints the exact rational as numerator and
denominator.  No claim below depends on float display. -/
def floatToStr (q : ℚ) : Str := intToStr q.num ++ ('/' :: natToStr q.den)

/-- Embeds `FormatValue` (src/run.sh:2856), matched over the RowValue union. -/
def FormatValue : CellValue → Str
  | .null => 'N' :: 'U' :: 'L' :: 'L' :: []
  | .bool true => 'Y' :: 'e' :: 's' :: []
  | .bool false => 'N' :: 'o' :: []
  | .int n => intToStr n
  | .float q => floatToStr q
  | .text s => s

/-- A fetched row: Go `model.RowData = map[string]interface{}` as an
association list. -/
abbrev RowData := List (Str × CellValue)

/-- First-match association-list lookup (Go map read, presence flavour). -/
def assocLookup {α : Type} : List (Str × α) → Str → Option α
  | [], _ => none
  | (k, v) :: r, key => if k = key then some v else assocLookup r key

/-- Association-list write: update the first matching key, else append
(Go map assignment). -/
def assocSet {α : Type} : List (Str × α) → Str → α → List (Str × α)
  | [], key, v => [(key, v)]
  | (k, w) :: r, key, v =>
    if k = key then (k, v) :: r else (k, w) :: assocSet r key v

/-- Go map read with zero value: a missing key reads as `nil`. -/
def rowGet (r : RowData) (k : Str) : CellValue := (assocLookup r k).getD .null

/-- Go map write into a row. -/
def rowSet (r : RowData) (k : Str) (v : CellValue) : RowData := assocSet r k v

/-- Embeds `model.ColumnMetadata` (src/main.go:674). -/
structure ColumnMetadata where
  name : Str
  colType : Str
  nullable : Bool
  key : Str
deriving DecidableEq

/-- Embeds `model.ViewMode`: the Data / Structure / Indices tabs. -/
inductive ViewMode where
  | dataMode
  | structureMode
  | indicesMode
deriving DecidableEq

/-- Go slice read `xs[i]` on an `int` index: `none` models the runtime panic
on an out-of-range (including negative) index. -/
def listGetInt {α : Type} (xs : List α) (i : Int) : Option α :=
  if i < 0 then none else xs.get? i.toNat

/-- Go slice write `xs[i] = a`; only ever used after a successful bounds
check in the embedded functions. -/
def listSetInt {α : Type} (xs : List α) (i : Int) (a : α) : List α :=
  if i < 0 then xs else xs.set i.toNat a

/-- Embeds the claim-relevant fields of `AppModel` (src/unnamed/part_000:17).
`tableData` / `tableMetadata` / `tableIndices` are Go maps keyed by table
name; a nil slice stored in a Go map behaves like an absent key at every use
site in scope (`!= nil` tests and `len` on nil being 0), so the model does
not distinguish the two. -/
structure AppModel where
  tables : List Str
  tableData : List (Str × List RowData)
  tableMetadata : List (Str × List ColumnMetadata)
  tableIndices : List (Str × List Str)
  selectedIdx : Int
  activeTableIdx : Int
  mode : ViewMode
  focusLeft : Bool
  sidebarScroll : Int
  mainScroll : Int
  editing : Bool
  cursorRow : Int
  cursorCol : Int
  editBuffer : Str
  editingField : Str
  showEditHelp : Bool
  showEditModal : Bool
  modalTargetRow : Int
  modalTargetCol : Int
deriving DecidableEq

/-- The substring the int coercion branch looks for. -/
def strInt : Str := ['i', 'n', 't']

/-- The substrings the float coercion branch looks for. -/
def strFloat : Str := ['f', 'l', 'o', 'a', 't']

/-- See `strFloat`. -/
def strDouble : Str := ['d', 'o', 'u', 'b', 'l', 'e']

/-- See `strFloat`. -/
def strDecimal : Str := ['d', 'e', 'c', 'i', 'm', 'a', 'l']

/-- The substrings the bool coercion branch looks for. -/
def strBool : Str := ['b', 'o', 'o', 'l']

/-- See `strBool`. -/
def strTinyint1 : Str := ['t', 'i', 'n', 'y', 'i', 'n', 't', '(', '1', ')']

/-- Bool literal accepted as true. -/
def strTrue : Str := ['t', 'r', 'u', 'e']

/-- Bool literal accepted as true. -/
def strYes : Str := ['y', 'e', 's']

/-- Bool literal accepted as true. -/
def strOne : Str := ['1']

/-- Bool literal accepted as false. -/
def strFalse : Str := ['f', 'a', 'l', 's', 'e']

/-- Bool literal accepted as false. -/
def strNo : Str := ['n', 'o']

/-- Bool literal accepted as false. -/
def strZero : Str := ['0']

/-- The effective commit row: the modal target when the edit came from the
modal, else the cursor row (src/unnamed/part_000:695). -/
def targetRowOf (m : AppModel) : Int :=
  if m.showEditModal then m.modalTargetRow else m.cursorRow

/-- The effective commit column (src/unnamed/part_000:696). -/
def targetColOf (m : AppModel) : Int :=
  if m.showEditModal then m.modalTargetCol else m.cursorCol

/-- Embeds `getCurrentFieldName` (src/unnamed/part_000:646): the metadata name
of the cursor column, or `""` when the table or metadata is unavailable.
`none` models the panic on a negative cursor column. -/
def getCurrentFieldName (m : AppModel) : Option Str :=
  if m.activeTableIdx < 0 ∨ m.activeTableIdx ≥ (m.tables.length : Int) then some []
  else
    match listGetInt m.tables m.activeTableIdx with
    | none => none
    | some table =>
      match assocLookup m.tableMetadata table with
      | none => some []
      | some metadata =>
        if m.cursorCol ≥ (metadata.length : Int) then some []
        else
          match listGetInt metadata m.cursorCol with
          | none => none
          | some colMeta => some colMeta.name

/-- Embeds `getCurrentCellValue` (src/unnamed/part_000:662): the formatted
value of the cell under the cursor; a Null cell (and every missing-data case)
yields the empty string, not the word NULL.  `none` models the panic on a
negative cursor index. -/
def getCurrentCellValue (m : AppModel) : Option Str :=
  if m.activeTableIdx < 0 ∨ m.activeTableIdx ≥ (m.tables.length : Int) then some []
  else
    match listGetInt m.tables m.activeTableIdx with
    | none => none
    | some table =>
      match assocLookup m.tableData table with
      | none => some []
      | some data =>
        if m.cursorRow ≥ (data.length : Int) then some []
        else
          match listGetInt data m.cursorRow with
          | none => none
          | some row =>
            match assocLookup m.tableMetadata table with
            | none => some []
            | some metadata =>
              if m.cursorCol ≥ (metadata.length : Int) then some []
              else
                match listGetInt metadata m.cursorCol with
                | none => none
                | some colMeta =>
                  match assocLookup row colMeta.name with
                  | none => some []
                  | some val =>
                    if val = .null then some [] else some (FormatValue val)

/-- Embeds `enterInlineEditMode` (src/unnamed/part_000:574): only in data
mode; seeds the buffer with the formatted current cell value. -/
def enterInlineEditMode (m : AppModel) : Option AppModel :=
  if m.mode ≠ .dataMode then some m
  else
    match getCurrentCellValue m, getCurrentFieldName m with
    | some buf, some fld =>
      some { m with editing := true, showEditModal := false,
                    editBuffer := buf, editingField := fld }
    | _, _ => none

/-- Embeds `enterModalEditMode` (src/unnamed/part_000:591): as inline entry,
additionally recording the cursor as the modal commit target. -/
def enterModalEditMode (m : AppModel) : Option AppModel :=
  if m.mode ≠ .dataMode then some m
  else
    match getCurrentCellValue m, getCurrentFieldName m with
    | some buf, some fld =>
      some { m with editing := true, showEditModal := true,
                    editBuffer := buf, editingField := fld,
                    modalTargetRow := m.cursorRow, modalTargetCol := m.cursorCol }
    | _, _ => none

/-- Embeds `applyEdit` (src/unnamed/part_000:694): commit the edit buffer into
the target cell with type-directed coercion.  `some m` with `m` unchanged
models every early `return`; `none` models a panic (negative target index
reaching a slice access). -/
def applyEdit (m : AppModel) : Option AppModel :=
  let targetRow := targetRowOf m
  let targetCol := targetColOf m
  if m.activeTableIdx < 0 ∨ m.activeTableIdx ≥ (m.tables.length : Int) then some m
  else
    match listGetInt m.tables m.activeTableIdx with
    | none => none
    | some table =>
      match assocLookup m.tableData table, assocLookup m.tableMetadata table with
      | some data, some metadata =>
        if targetRow ≥ (data.length : Int) ∨ targetCol ≥ (metadata.length : Int) then some m
        else
          match listGetInt metadata targetCol with
          | none => none
          | some colMeta =>
            match listGetInt data targetRow with
            | none => none
            | some row =>
              let newValue : CellValue :=
                if m.editBuffer = [] ∧ colMeta.nullable then .text []
                else if containsStr colMeta.colType strInt then
                  match ParseInt m.editBuffer with
                  | some v => .int v
                  | none =>
                    if colMeta.nullable then .null else rowGet row colMeta.name
                else if containsStr colMeta.colType strFloat ||
                        containsStr colMeta.colType strDouble ||
                        containsStr colMeta.colType strDecimal then
                  match ParseFloat m.editBuffer with
                  | some v => .float v
                  | none =>
                    if colMeta.nullable then .null else rowGet row colMeta.name
                else if containsStr colMeta.colType strBool ||
                        containsStr colMeta.colType strTinyint1 then
                  let lowerBuffer := toLowerStr m.editBuffer
                  if lowerBuffer = strTrue ∨ lowerBuffer = strYes ∨ lowerBuffer = strOne then
                    .bool true
                  else if lowerBuffer = strFalse ∨ lowerBuffer = strNo ∨ lowerBuffer = strZero then
                    .bool false
                  else if colMeta.nullable then .null
                  else .bool false
                else
                  if m.editBuffer = [] ∧ ¬colMeta.nullable then .text []
                  else .text m.editBuffer
              let row2 := rowSet row colMeta.name newValue
              let data2 := listSetInt data targetRow row2
              some { m with tableData := assocSet m.tableData table data2 }
      | _, _ => some m

/-- Embeds `setCellToNull` (src/unnamed/part_000:788): the ctrl+n shortcut.
Writes Null to the cursor cell only in data mode with the right panel
focused, a valid cursor and a nullable column; otherwise leaves the state
unchanged.  `none` models the panic on a negative cursor index. -/
def setCellToNull (m : AppModel) : Option AppModel :=
  if m.mode ≠ .dataMode ∨ m.focusLeft then some m
  else if m.activeTableIdx < 0 ∨ m.activeTableIdx ≥ (m.tables.length : Int) then some m
  else
    match listGetInt m.tables m.activeTableIdx with
    | none => none
    | some table =>
      match assocLookup m.tableData table, assocLookup m.tableMetadata table with
      | some data, some metadata =>
        if m.cursorRow ≥ (data.length : Int) ∨ m.cursorCol ≥ (metadata.length : Int) then some m
        else
          match listGetInt metadata m.cursorCol with
          | none => none
          | some colMeta =>
            if colMeta.nullable then
              match listGetInt data m.cursorRow with
              | none => none
              | some row =>
                let row2 := rowSet row colMeta.name .null
                let data2 := listSetInt data m.cursorRow row2
                some { m with tableData := assocSet m.tableData table data2 }
            else some m
      | _, _ => some m

/-- Terminal key string of the escape key. -/
def keyEsc : Str := ['e', 's', 'c']

/-- Terminal key string of the enter key. -/
def keyEnter : Str := ['e', 'n', 't', 'e', 'r']

/-- Terminal key string of the backspace key. -/
def keyBackspace : Str := ['b', 'a', 'c', 'k', 's', 'p', 'a', 'c', 'e']

/-- Terminal key string of the up arrow. -/
def keyUp : Str := ['u', 'p']

/-- Terminal key string of the down arrow. -/
def keyDown : Str := ['d', 'o', 'w', 'n']

/-- Terminal key string of the left arrow. -/
def keyArrowLeft : Str := ['l', 'e', 'f', 't']

/-- Terminal key string of the right arrow. -/
def keyArrowRight : Str := ['r', 'i', 'g', 'h', 't']

/-- Terminal key string of page-up. -/
def keyPgUp : Str := ['p', 'g', 'u', 'p']

/-- Terminal key string of page-down. -/
def keyPgDown : Str := ['p', 'g', 'd', 'o', 'w', 'n']

/-- Terminal key string of the home key. -/
def keyHome : Str := ['h', 'o', 'm', 'e']

/-- Terminal key string of the end key. -/
def keyEnd : Str := ['e', 'n', 'd']

/-- Terminal key string of the tab key. -/
def keyTab : Str := ['t', 'a', 'b']

/-- Terminal key string of ctrl+c. -/
def keyCtrlC : Str := ['c', 't', 'r', 'l', '+', 'c']

/-- Terminal key string of ctrl+e (modal edit). -/
def keyCtrlE : Str := ['c', 't', 'r', 'l', '+', 'e']

/-- Terminal key string of ctrl+n (set null). -/
def keyCtrlN : Str := ['c', 't', 'r', 'l', '+', 'n']

/-- Embeds `handleEditModeKeys` (src/unnamed/part_000:295): the inline edit
key handler.  A default key is appended to the buffer only when its key
string is a single printable ASCII character (Go checks byte length 1 and
byte range 32 to 126; a character above that range is multi-byte in Go and
single here, rejected either way).  Backspace drops the last character (the
Go source drops the last byte; identical on ASCII buffers). -/
def handleEditModeKeys (m : AppModel) (key : Str) : Option AppModel :=
  if key = keyEsc then some { m with editing := false, editBuffer := [] }
  else if key = keyEnter then
    match applyEdit m with
    | none => none
    | some m2 => some { m2 with editing := false, editBuffer := [] }
  else if key = keyBackspace then
    some { m with editBuffer :=
      if m.editBuffer.length > 0 then m.editBuffer.dropLast else m.editBuffer }
  else
    some { m with editBuffer :=
      match key with
      | [c] => if 32 ≤ c.toNat ∧ c.toNat ≤ 126 then m.editBuffer ++ [c] else m.editBuffer
      | _ => m.editBuffer }

/-- Embeds `handleEditModalKeys` (src/unnamed/part_000:609): the modal edit
key handler.  The default branch only checks Go byte length 1, so every
single-byte character (code at most 127), printable or not, is appended. -/
def handleEditModalKeys (m : AppModel) (key : Str) : Option AppModel :=
  if key = keyEsc then some { m with editing := false, showEditModal := false, editBuffer := [] }
  else if key = keyEnter then
    match applyEdit m with
    | none => none
    | some m2 => some { m2 with editing := false, showEditModal := false, editBuffer := [] }
  else if key = keyBackspace then
    some { m with editBuffer :=
      if m.editBuffer.length > 0 then m.editBuffer.dropLast else m.editBuffer }
  else
    some { m with editBuffer :=
      match key with
      | [c] => if c.toNat ≤ 127 then m.editBuffer ++ [c] else m.editBuffer
      | _ => m.editBuffer }

/-- Embeds `handleLeftPanelKeys` (src/unnamed/part_000:327), the sidebar
handler.  `sbH` is `m.styles.SidebarStyle.GetHeight()`; the code derives the
visible height as `sbH - 2` at each use. -/
def handleLeftPanelKeys (sbH : Int) (m : AppModel) (key : Str) : AppModel :=
  if key = keyUp ∨ key = ['k'] then
    if m.selectedIdx > 0 then
      let sel := m.selectedIdx - 1
      let sc := if sel < m.sidebarScroll then sel else m.sidebarScroll
      { m with selectedIdx := sel, sidebarScroll := sc }
    else m
  else if key = keyDown ∨ key = ['j'] then
    if m.selectedIdx < (m.tables.length : Int) - 1 then
      let sel := m.selectedIdx + 1
      let visibleHeight := sbH - 2
      let sc := if sel ≥ m.sidebarScroll + visibleHeight then sel - visibleHeight + 1
                else m.sidebarScroll
      { m with selectedIdx := sel, sidebarScroll := sc }
    else m
  else if key = keyEnter then
    { m with activeTableIdx := m.selectedIdx, mainScroll := 0, cursorRow := 0, cursorCol := 0 }
  else if key = keyPgUp then
    let visibleHeight := sbH - 2
    let sc0 := m.sidebarScroll - visibleHeight
    let sc := if sc0 < 0 then 0 else sc0
    let sel := if m.selectedIdx ≥ sc + visibleHeight then sc + visibleHeight - 1
               else if m.selectedIdx < sc then sc
               else m.selectedIdx
    { m with sidebarScroll := sc, selectedIdx := sel }
  else if key = keyPgDown then
    let visibleHeight := sbH - 2
    let ms0 := (m.tables.length : Int) - visibleHeight
    let maxScroll := if ms0 < 0 then 0 else ms0
    let sc0 := m.sidebarScroll + visibleHeight
    let sc := if sc0 > maxScroll then maxScroll else sc0
    let sel := if m.selectedIdx < sc then sc
               else if m.selectedIdx ≥ sc + visibleHeight then
                 let s0 := sc + visibleHeight - 1
                 if s0 ≥ (m.tables.length : Int) then (m.tables.length : Int) - 1 else s0
               else m.selectedIdx
    { m with sidebarScroll := sc, selectedIdx := sel }
  else if key = keyHome then
    let sel := if m.selectedIdx < 0 then 0 else m.selectedIdx
    { m with sidebarScroll := 0, selectedIdx := sel }
  else if key = keyEnd then
    let visibleHeight := sbH - 2
    let ms0 := (m.tables.length : Int) - visibleHeight
    let maxScroll := if ms0 < 0 then 0 else ms0
    let sel := if m.selectedIdx < maxScroll then maxScroll else m.selectedIdx
    { m with sidebarScroll := maxScroll, selectedIdx := sel }
  else m

/-- The content height the right panel scrolls over, as computed identically
inside the pgdown and end branches of `handleRightPanelKeys`
(src/unnamed/part_000:452 and 482): row count plus a header line in data
mode, item count plus title and blank line in the other modes, 0 when the
active table or its map entry is unavailable. -/
def maxContentOf (m : AppModel) : Int :=
  if m.activeTableIdx ≥ 0 ∧ m.activeTableIdx < (m.tables.length : Int) then
    match listGetInt m.tables m.activeTableIdx with
    | none => 0
    | some table =>
      match m.mode with
      | .dataMode =>
        match assocLookup m.tableData table with
        | some data => (data.length : Int) + 1
        | none => 0
      | .structureMode =>
        match assocLookup m.tableMetadata table with
        | some metadata => (metadata.length : Int) + 2
        | none => 0
      | .indicesMode =>
        match assocLookup m.tableIndices table with
        | some indices => (indices.length : Int) + 2
        | none => 0
  else 0

/-- The row count of the active table, as computed in the data-mode down
branch of `handleRightPanelKeys` (src/unnamed/part_000:520). -/
def maxRowsOf (m : AppModel) : Int :=
  if m.activeTableIdx ≥ 0 ∧ m.activeTableIdx < (m.tables.length : Int) then
    match listGetInt m.tables m.activeTableIdx with
    | none => 0
    | some table =>
      match assocLookup m.tableData table with
      | some data => (data.length : Int)
      | none => 0
  else 0

/-- The column count of the active table, as computed in the data-mode right
branch of `handleRightPanelKeys` (src/unnamed/part_000:547). -/
def maxColsOf (m : AppModel) : Int :=
  if m.activeTableIdx ≥ 0 ∧ m.activeTableIdx < (m.tables.length : Int) then
    match listGetInt m.tables m.activeTableIdx with
    | none => 0
    | some table =>
      match assocLookup m.tableMetadata table with
      | some metadata => (metadata.length : Int)
      | none => 0
  else 0

/-- Embeds `handleRightPanelKeys` (src/unnamed/part_000:424), the main panel
handler.  `mainH` is `m.styles.MainBoxStyle.GetHeight()`; the scroll branches
use `mainH - 2` and the data-mode cursor-down branch uses `mainH - 3`, as in
the source.  `none` models a panic inside an edit-entry or set-null action. -/
def handleRightPanelKeys (mainH : Int) (m : AppModel) (key : Str) : Option AppModel :=
  if key = ['d'] then some { m with mode := .dataMode, mainScroll := 0 }
  else if key = ['s'] then some { m with mode := .structureMode, mainScroll := 0 }
  else if key = ['i'] then some { m with mode := .indicesMode, mainScroll := 0 }
  else if key = keyPgUp then
    let visibleHeight := mainH - 2
    let sc0 := m.mainScroll - visibleHeight
    let sc := if sc0 < 0 then 0 else sc0
    some { m with mainScroll := sc }
  else if key = keyPgDown then
    let maxContent := maxContentOf m
    let visibleHeight := mainH - 2
    let sc0 := m.mainScroll + visibleHeight
    let ms0 := maxContent - visibleHeight
    let maxScroll := if ms0 < 0 then 0 else ms0
    let sc := if sc0 > maxScroll then maxScroll else sc0
    some { m with mainScroll := sc }
  else if key = keyHome then some { m with mainScroll := 0 }
  else if key = keyEnd then
    let maxContent := maxContentOf m
    let visibleHeight := mainH - 2
    let ms0 := maxContent - visibleHeight
    let maxScroll := if ms0 < 0 then 0 else ms0
    some { m with mainScroll := maxScroll }
  else if m.mode = .dataMode then
    if key = keyUp ∨ key = ['k'] then
      some (if m.cursorRow > 0 then
        let cr := m.cursorRow - 1
        let sc := if cr < m.mainScroll then cr else m.mainScroll
        { m with cursorRow := cr, mainScroll := sc }
      else m)
    else if key = keyDown ∨ key = ['j'] then
      some (if m.cursorRow < maxRowsOf m - 1 then
        let cr := m.cursorRow + 1
        let visibleHeight := mainH - 3
        let sc := if cr ≥ m.mainScroll + visibleHeight then cr - visibleHeight + 1
                  else m.mainScroll
        { m with cursorRow := cr, mainScroll := sc }
      else m)
    else if key = keyArrowLeft ∨ key = ['h'] then
      some (if m.cursorCol > 0 then { m with cursorCol := m.cursorCol - 1 } else m)
    else if key = keyArrowRight ∨ key = ['l'] then
      some (if m.cursorCol < maxColsOf m - 1 then { m with cursorCol := m.cursorCol + 1 } else m)
    else if key = keyEnter ∨ key = ['e'] then enterInlineEditMode m
    else if key = keyCtrlE then enterModalEditMode m
    else if key = keyCtrlN then setCellToNull m
    else some m
  else some m

/-- Embeds `handleKeyPress` (src/unnamed/part_000:240): modal keys first,
then the global keys (quit, tab, 1, 2, help toggle), then inline-edit keys,
then the focused panel handler.  `tea.Quit` leaves the state unchanged here
(the program exits; no state field records it). -/
def handleKeyPress (sbH mainH : Int) (m : AppModel) (key : Str) : Option AppModel :=
  if m.showEditModal then handleEditModalKeys m key
  else if key = keyCtrlC ∨ key = ['q'] then some m
  else if key = keyTab then
    let m2 := { m with focusLeft := !m.focusLeft }
    some (if m2.focusLeft ∧ m2.editing then { m2 with editing := false, editBuffer := [] } else m2)
  else if key = ['1'] then
    some (if m.editing then
      { m with focusLeft := true, editing := false, editBuffer := [] }
    else { m with focusLeft := true })
  else if key = ['2'] then some { m with focusLeft := false }
  else if key = ['?'] then some { m with showEditHelp := !m.showEditHelp }
  else if m.editing then handleEditModeKeys m key
  else if m.focusLeft then some (handleLeftPanelKeys sbH m key)
  else handleRightPanelKeys mainH m key

/-- Embeds `TruncateWithEllipsis` (src/run.sh:2843).  `width` is taken as a
natural number: every call site passes a non-negative width, a negative Go
width would panic in the slicing expressions, and the stated properties
already presuppose a non-negative width.  Go slices bytes; the model takes
characters, which agree on ASCII text. -/
def TruncateWithEllipsis (text : Str) (width : Nat) : Str :=
  if text.length ≤ width then text
  else if width ≤ 3 then text.take width
  else text.take (width - 3) ++ ['.', '.', '.']

/-- One column of the distribute branch of `CalculateDynamicWidths`
(src/run.sh:392–404): the new width and the extra space actually used,
starting from the column minimum.  The Go source computes the proportional
share as `int(float64(extraSpace) * (float64(ideal) / float64(totalIdeal)))`;
the model truncates the exact quotient toward zero (`Int.tdiv`), the same
rounding direction, without the float64 rounding of the two intermediate
operations. -/
def growCol (extraSpace totalIdeal minW idealW : Int) : Int × Int :=
  let extra0 := Int.tdiv (extraSpace * idealW) totalIdeal
  let extra := if minW + extra0 > idealW then idealW - minW else extra0
  (minW + extra, extra)

/-- One column of the shrink branch of `CalculateDynamicWidths`
(src/run.sh:424–437): reduce proportionally but never drive a column below
the absolute floor of 3 (and never increase it).  Same float64-to-exact
modelling note as `growCol`. -/
def shrinkCol (reduction totalIdeal minW idealW : Int) : Int :=
  let reduceBy0 := Int.tdiv (reduction * idealW) totalIdeal
  let reduceBy :=
    if minW - reduceBy0 < 3 then
      let r := minW - 3
      if r < 0 then 0 else r
    else reduceBy0
  minW - reduceBy

/-- The usable width `CalculateDynamicWidths` distributes: available width
minus the fixed border (3), per-cell padding (3 per column) and row-number
gutter (7) overhead, clamped at 0 (src/run.sh:361–371). -/
def usableWidthOf (availableWidth : Int) (numColumns : Nat) : Int :=
  let tableBorderOverhead : Int := 3
  let cellPaddingOverhead : Int := 3 * (numColumns : Int)
  let rowNumberColumn : Int := 7
  let totalOverhead := tableBorderOverhead + cellPaddingOverhead + rowNumberColumn
  let usable0 := availableWidth - totalOverhead
  if usable0 < 0 then 0 else usable0

/-- The distribute branch of `CalculateDynamicWidths` (src/run.sh:381–409):
grow every column toward its ideal proportionally, then hand any leftover
from rounding to the last column. -/
def growWidths (usableWidth : Int) (numColumns : Nat)
    (minWidths idealWidths : List Int) : List Int :=
  let totalIdealWidth := idealWidths.sum
  let extraSpace := usableWidth - minWidths.sum
  let grown := List.zipWith (growCol extraSpace totalIdealWidth) minWidths idealWidths
  let result1 := grown.map Prod.fst
  let spaceUsed := (grown.map Prod.snd).sum
  if spaceUsed < extraSpace ∧ numColumns > 0 then
    result1.set (numColumns - 1) (result1.getD (numColumns - 1) 0 + (extraSpace - spaceUsed))
  else result1

/-- The shrink branch of `CalculateDynamicWidths` (src/run.sh:410–437). -/
def shrinkWidths (usableWidth : Int) (minWidths idealWidths : List Int) : List Int :=
  List.zipWith (shrinkCol (minWidths.sum - usableWidth) idealWidths.sum) minWidths idealWidths

/-- Embeds `CalculateDynamicWidths` (src/run.sh:358).  Assumes
`len(minWidths) = len(idealWidths) = numColumns`, which every call site and
every claim satisfies (the Go copy loop would panic on a longer `minWidths`
and zero-fill on a shorter one). -/
def CalculateDynamicWidths (availableWidth : Int) (numColumns : Nat)
    (minWidths idealWidths : List Int) : List Int :=
  let usableWidth := usableWidthOf availableWidth numColumns
  let totalMinWidth := minWidths.sum
  if totalMinWidth < usableWidth then growWidths usableWidth numColumns minWidths idealWidths
  else if totalMinWidth > usableWidth then shrinkWidths usableWidth minWidths idealWidths
  else minWidths

/-- Read the cell of table `table`, row `r`, column name `colName` in a
state, with Go map-read semantics for the column (missing key reads `nil`).
`none` when the table or row does not exist. -/
def cellAt (m : AppModel) (table : Str) (r : Int) (colName : Str) : Option CellValue :=
  match assocLookup m.tableData table with
  | none => none
  | some data => (listGetInt data r).map (fun row => rowGet row colName)

/-- A one-table, one-column, one-row sample state: column `A` of declared
type `tinyint(1)`, nullable, holding `false`; the inline editor is open on it
with an empty buffer. -/
def exM1 : AppModel :=
  { tables := [['u']]
  , tableData := [(['u'], [[(['A'], CellValue.bool false)]])]
  , tableMetadata := [(['u'], [{ name := ['A'], colType := strTinyint1, nullable := true, key := [] }])]
  , tableIndices := []
  , selectedIdx := 0, activeTableIdx := 0, mode := .dataMode, focusLeft := false
  , sidebarScroll := 0, mainScroll := 0, editing := true
  , cursorRow := 0, cursorCol := 0, editBuffer := [], editingField := ['A']
  , showEditHelp := false, showEditModal := false, modalTargetRow := 0, modalTargetCol := 0 }

/-- A sample state editing a non-nullable `int` column holding 7, with the
unparsable buffer `abc` pending. -/
def exM2 : AppModel :=
  { tables := [['u']]
  , tableData := [(['u'], [[(['I'], CellValue.int 7)]])]
  , tableMetadata := [(['u'], [{ name := ['I'], colType := strInt, nullable := false, key := [] }])]
  , tableIndices := []
  , selectedIdx := 0, activeTableIdx := 0, mode := .dataMode, focusLeft := false
  , sidebarScroll := 0, mainScroll := 0, editing := true
  , cursorRow := 0, cursorCol := 0, editBuffer := ['a', 'b', 'c'], editingField := ['I']
  , showEditHelp := false, showEditModal := false, modalTargetRow := 0, modalTargetCol := 0 }

/-- The declared type of the text-column example. -/
def strVarchar50 : Str := ['v', 'a', 'r', 'c', 'h', 'a', 'r', '(', '5', '0', ')']

/-- The buffer spelling the word NULL. -/
def strNULLword : Str := ['N', 'U', 'L', 'L']

/-- A sample state editing a `varchar(50)` column, with the buffer spelling
the word NULL pending. -/
def exM3 : AppModel :=
  { tables := [['u']]
  , tableData := [(['u'], [[(['S'], CellValue.text ['x'])]])]
  , tableMetadata := [(['u'], [{ name := ['S'], colType := strVarchar50, nullable := true, key := [] }])]
  , tableIndices := []
  , selectedIdx := 0, activeTableIdx := 0, mode := .dataMode, focusLeft := false
  , sidebarScroll := 0, mainScroll := 0, editing := true
  , cursorRow := 0, cursorCol := 0, editBuffer := strNULLword, editingField := ['S']
  , showEditHelp := false, showEditModal := false, modalTargetRow := 0, modalTargetCol := 0 }

/-- A sample browsing state whose cursor cell holds Null. -/
def exM4 : AppModel :=
  { tables := [['u']]
  , tableData := [(['u'], [[(['A'], CellValue.null)]])]
  , tableMetadata := [(['u'], [{ name := ['A'], colType := strVarchar50, nullable := true, key := [] }])]
  , tableIndices := []
  , selectedIdx := 0, activeTableIdx := 0, mode := .dataMode, focusLeft := false
  , sidebarScroll := 0, mainScroll := 0, editing := false
  , cursorRow := 0, cursorCol := 0, editBuffer := [], editingField := []
  , showEditHelp := false, showEditModal := false, modalTargetRow := 0, modalTargetCol := 0 }

/-- The viewport invariant of the spec (§3, §8) for both independently
scrolled offsets, together with the cursor-row lower bound the data panel
maintains (every handler keeps `cursorRow ≥ 0`; the bound is needed because
the cursor-down branch rederives the scroll offset from the cursor).  The
sidebar total is the table count; the main total is the mode-dependent
content height `maxContentOf`; the visible counts are `sbH - 2` and
`mainH - 2` as derived from the panel heights in the source. -/
def viewportInv (sbH mainH : Int) (m : AppModel) : Prop :=
  0 ≤ m.sidebarScroll ∧
  m.sidebarScroll ≤ max 0 ((m.tables.length : Int) - (sbH - 2)) ∧
  0 ≤ m.mainScroll ∧
  m.mainScroll ≤ max 0 (maxContentOf m - (mainH - 2)) ∧
  0 ≤ m.cursorRow

/-- One scroll-relevant key delivered to one of the two panels: `true`
selects the sidebar handler, `false` the main panel handler. -/
def panelStep (sbH mainH : Int) (m : AppModel) (pk : Bool × Str) : Option AppModel :=
  if pk.1 then some (handleLeftPanelKeys sbH m pk.2) else handleRightPanelKeys mainH m pk.2

/-- A sequence of panel key events, stopping at a panic. -/
def panelFold (sbH mainH : Int) (om : Option AppModel) (pks : List (Bool × Str)) :
    Option AppModel :=
  pks.foldl (fun acc pk => acc.bind (fun mm => panelStep sbH mainH mm pk)) om

/-- A sidebar state listing 50 tables, scrolled to the top. -/
def exSb : AppModel :=
  { tables := List.replicate 50 ['t']
  , tableData := [], tableMetadata := [], tableIndices := []
  , selectedIdx := 0, activeTableIdx := 0, mode := .dataMode, focusLeft := true
  , sidebarScroll := 0, mainScroll := 0, editing := false, cursorRow := 0, cursorCol := 0
  , editBuffer := [], editingField := [], showEditHelp := false, showEditModal := false
  , modalTargetRow := 0, modalTargetCol := 0 }

/-- A key event of the kind the cancel round-trip quantifies over: a single
character, or backspace. -/
def isTypingKey (k : Str) : Bool := decide (k.length = 1) || decide (k = keyBackspace)

/-- A sequence of key events through the full dispatcher, stopping at a
panic. -/
def keysFold (sbH mainH : Int) (om : Option AppModel) (ks : List Str) : Option AppModel :=
  ks.foldl (fun acc k => acc.bind (fun mm => handleKeyPress sbH mainH mm k)) om

/-- The state after opening the inline editor on `exM4`. -/
def exM4e1 : AppModel :=
  { exM4 with editing := true, showEditModal := false, editBuffer := [], editingField := ['A'] }

/-- The state after typing a, backspace and escape from `exM4e1`. -/
def exM4e2 : AppModel :=
  { exM4 with editing := false, showEditModal := false, editBuffer := [], editingField := ['A'] }

/-! ### Supporting lemmas -/

theorem listGetInt_bounds {α : Type} {xs : List α} {i : Int} {a : α}
    (h : listGetInt xs i = some a) : 0 ≤ i ∧ i < (xs.length : Int) := by
  unfold listGetInt at h
  split at h
  · exact absurd h (by simp)
  · rename_i hi
    obtain ⟨hlt, -⟩ := List.get?_eq_some.mp h
    omega

theorem length_listSetInt {α : Type} (xs : List α) (i : Int) (a : α) :
    (listSetInt xs i a).length = xs.length := by
  unfold listSetInt
  split <;> simp

theorem listGetInt_set_self {α : Type} {xs : List α} {i : Int} {a : α}
    (h : listGetInt xs i = some a) (b : α) :
    listGetInt (listSetInt xs i b) i = some b := by
  obtain ⟨h0, hlt⟩ := listGetInt_bounds h
  unfold listGetInt listSetInt
  rw [if_neg (by omega), if_neg (by omega)]
  rw [List.get?_eq_getElem?, List.getElem?_set_eq_of_lt]
  omega

theorem listGetInt_set_ne {α : Type} (xs : List α) {i : Int} (j : Int) (a : α)
    (hne : j ≠ i) : listGetInt (listSetInt xs i a) j = listGetInt xs j := by
  unfold listGetInt listSetInt
  by_cases hi : i < 0
  · rw [if_pos hi]
  · rw [if_neg hi]
    by_cases hj : j < 0
    · rw [if_pos hj, if_pos hj]
    · rw [if_neg hj, if_neg hj, List.get?_eq_getElem?, List.get?_eq_getElem?,
        List.getElem?_set_ne]
      omega

theorem assocLookup_assocSet_self {α : Type} (l : List (Str × α)) (k : Str) (v : α) :
    assocLookup (assocSet l k v) k = some v := by
  induction l with
  | nil => simp [assocSet, assocLookup]
  | cons p r ih =>
    unfold assocSet
    by_cases hk : p.1 = k
    · rw [if_pos hk]
      unfold assocLookup
      rw [if_pos hk]
    · rw [if_neg hk]
      unfold assocLookup
      rw [if_neg hk]
      exact ih

theorem assocLookup_assocSet_ne {α : Type} (l : List (Str × α)) (k k2 : Str) (v : α)
    (h : k2 ≠ k) : assocLookup (assocSet l k v) k2 = assocLookup l k2 := by
  induction l with
  | nil =>
    simp only [assocSet, assocLookup]
    rw [if_neg fun hh => h hh.symm]
  | cons p r ih =>
    unfold assocSet
    by_cases hk : p.1 = k
    · rw [if_pos hk]
      unfold assocLookup
      by_cases hk2 : p.1 = k2
      · exact absurd (hk2.symm.trans hk) h
      · rw [if_neg hk2, if_neg hk2]
    · rw [if_neg hk]
      unfold assocLookup
      by_cases hk2 : p.1 = k2
      · rw [if_pos hk2, if_pos hk2]
      · rw [if_neg hk2, if_neg hk2]
        exact ih

theorem rowGet_rowSet_self (r : RowData) (k : Str) (v : CellValue) :
    rowGet (rowSet r k v) k = v := by
  unfold rowGet rowSet
  rw [assocLookup_assocSet_self]
  rfl

theorem rowGet_rowSet_ne (r : RowData) (k k2 : Str) (v : CellValue) (h : k2 ≠ k) :
    rowGet (rowSet r k v) k2 = rowGet r k2 := by
  unfold rowGet rowSet
  rw [assocLookup_assocSet_ne _ _ _ _ h]

theorem listGetInt_of_lt {α : Type} {xs : List α} {i : Int}
    (h0 : 0 ≤ i) (h1 : i < (xs.length : Int)) : ∃ a, listGetInt xs i = some a := by
  unfold listGetInt
  rw [if_neg (by omega)]
  cases hg : xs.get? i.toNat
  · rw [List.get?_eq_none] at hg
    omega
  · exact ⟨_, rfl⟩

theorem maxContentOf_congr {m m2 : AppModel} (ht : m2.tables = m.tables)
    (ha : m2.activeTableIdx = m.activeTableIdx) (hm : m2.mode = m.mode)
    (hd : m2.tableData = m.tableData) (hmd : m2.tableMetadata = m.tableMetadata)
    (hi : m2.tableIndices = m.tableIndices) : maxContentOf m2 = maxContentOf m := by
  unfold maxContentOf
  rw [ht, ha, hm, hd, hmd, hi]

theorem maxContentOf_data_of_maxRows_pos {m : AppModel} (hm : m.mode = ViewMode.dataMode)
    (hpos : 0 < maxRowsOf m) : maxContentOf m = maxRowsOf m + 1 := by
  unfold maxContentOf maxRowsOf at *
  by_cases hio : m.activeTableIdx ≥ 0 ∧ m.activeTableIdx < (m.tables.length : Int)
  · obtain ⟨table, htab⟩ := listGetInt_of_lt hio.1 hio.2
    simp only [if_pos hio, htab, hm] at hpos ⊢
    cases hd : assocLookup m.tableData table
    · simp only [hd] at hpos
      exact absurd hpos (by omega)
    · simp only [hd] at hpos ⊢
  · simp only [if_neg hio] at hpos
    exact absurd hpos (by omega)

theorem enterInlineEditMode_shape {m m2 : AppModel} (h : enterInlineEditMode m = some m2) :
    m2 = m ∨ ∃ buf fld,
      m2 = { m with editing := true, showEditModal := false,
                    editBuffer := buf, editingField := fld } := by
  unfold enterInlineEditMode at h
  split at h
  · cases h
    exact Or.inl rfl
  · split at h
    · cases h
      exact Or.inr ⟨_, _, rfl⟩
    · exact Option.noConfusion h

theorem enterModalEditMode_shape {m m2 : AppModel} (h : enterModalEditMode m = some m2) :
    m2 = m ∨ ∃ buf fld,
      m2 = { m with editing := true, showEditModal := true,
                    editBuffer := buf, editingField := fld,
                    modalTargetRow := m.cursorRow, modalTargetCol := m.cursorCol } := by
  unfold enterModalEditMode at h
  split at h
  · cases h
    exact Or.inl rfl
  · split at h
    · cases h
      exact Or.inr ⟨_, _, rfl⟩
    · exact Option.noConfusion h

theorem setCellToNull_shape {m m2 : AppModel} (h : setCellToNull m = some m2) :
    m2 = m ∨ ∃ table data row2, listGetInt m.tables m.activeTableIdx = some table ∧
      assocLookup m.tableData table = some data ∧
      m2 = { m with tableData :=
                      assocSet m.tableData table (listSetInt data m.cursorRow row2) } := by
  unfold setCellToNull at h
  split at h
  · cases h
    exact Or.inl rfl
  · split at h
    · cases h
      exact Or.inl rfl
    · split at h
      · exact Option.noConfusion h
      · rename_i table htab
        split at h
        · rename_i data metadata hdata2 hmeta2
          split at h
          · cases h
            exact Or.inl rfl
          · split at h
            · exact Option.noConfusion h
            · split at h
              · split at h
                · exact Option.noConfusion h
                · cases h
                  exact Or.inr ⟨table, data, _, htab, hdata2, rfl⟩
              · cases h
                exact Or.inl rfl
        · cases h
          exact Or.inl rfl

theorem setCellToNull_frame {m m2 : AppModel} (h : setCellToNull m = some m2) :
    maxContentOf m2 = maxContentOf m ∧ m2.mainScroll = m.mainScroll ∧
    m2.sidebarScroll = m.sidebarScroll ∧ m2.cursorRow = m.cursorRow ∧
    m2.tables = m.tables := by
  rcases setCellToNull_shape h with rfl | ⟨table, data, row2, htab, hdata, rfl⟩
  · exact ⟨rfl, rfl, rfl, rfl, rfl⟩
  · refine ⟨?_, rfl, rfl, rfl, rfl⟩
    unfold maxContentOf
    dsimp only
    by_cases hio : m.activeTableIdx ≥ 0 ∧ m.activeTableIdx < (m.tables.length : Int)
    · simp only [if_pos hio, htab]
      cases hm : m.mode
      · simp only [hm, assocLookup_assocSet_self, hdata, length_listSetInt]
      · simp only [hm]
      · simp only [hm]
    · simp only [if_neg hio]

theorem panelFold_none (sbH mainH : Int) (pks : List (Bool × Str)) :
    panelFold sbH mainH none pks = none := by
  induction pks with
  | nil => rfl
  | cons pk pks ih => exact ih

theorem viewportInv_update_sidebar {sbH mainH : Int} {m : AppModel} (sel x : Int)
    (hi : viewportInv sbH mainH m) (h0 : 0 ≤ x)
    (h1 : x ≤ max 0 ((m.tables.length : Int) - (sbH - 2))) :
    viewportInv sbH mainH { m with selectedIdx := sel, sidebarScroll := x } := by
  obtain ⟨i1, i2, i3, i4, i5⟩ := hi
  refine ⟨h0, h1, i3, ?_, i5⟩
  rw [maxContentOf_congr rfl rfl rfl rfl rfl rfl]
  exact i4

theorem viewportInv_update_mainScroll {sbH mainH : Int} {m : AppModel} (x : Int)
    (hi : viewportInv sbH mainH m) (h0 : 0 ≤ x)
    (h1 : x ≤ max 0 (maxContentOf m - (mainH - 2))) :
    viewportInv sbH mainH { m with mainScroll := x } := by
  obtain ⟨i1, i2, i3, i4, i5⟩ := hi
  refine ⟨i1, i2, h0, ?_, i5⟩
  rw [maxContentOf_congr rfl rfl rfl rfl rfl rfl]
  exact h1

theorem viewportInv_update_mode {sbH mainH : Int} {m : AppModel} (md : ViewMode)
    (hi : viewportInv sbH mainH m) :
    viewportInv sbH mainH { m with mode := md, mainScroll := 0 } := by
  obtain ⟨i1, i2, i3, i4, i5⟩ := hi
  exact ⟨i1, i2, le_refl 0, le_max_left 0 _, i5⟩

theorem viewportInv_activate {sbH mainH : Int} {m : AppModel}
    (hi : viewportInv sbH mainH m) :
    viewportInv sbH mainH { m with activeTableIdx := m.selectedIdx,
                                   mainScroll := 0, cursorRow := 0, cursorCol := 0 } := by
  obtain ⟨i1, i2, i3, i4, i5⟩ := hi
  exact ⟨i1, i2, le_refl 0, le_max_left 0 _, le_refl 0⟩

theorem viewportInv_update_cursor {sbH mainH : Int} {m : AppModel} (cr x : Int)
    (hi : viewportInv sbH mainH m) (hcr : 0 ≤ cr) (h0 : 0 ≤ x)
    (h1 : x ≤ max 0 (maxContentOf m - (mainH - 2))) :
    viewportInv sbH mainH { m with cursorRow := cr, mainScroll := x } := by
  obtain ⟨i1, i2, i3, i4, i5⟩ := hi
  refine ⟨i1, i2, h0, ?_, hcr⟩
  rw [maxContentOf_congr rfl rfl rfl rfl rfl rfl]
  exact h1

theorem viewportInv_update_cursorCol {sbH mainH : Int} {m : AppModel} (cc : Int)
    (hi : viewportInv sbH mainH m) :
    viewportInv sbH mainH { m with cursorCol := cc } := by
  obtain ⟨i1, i2, i3, i4, i5⟩ := hi
  refine ⟨i1, i2, i3, ?_, i5⟩
  rw [maxContentOf_congr rfl rfl rfl rfl rfl rfl]
  exact i4

theorem viewportInv_enterInline {sbH mainH : Int} {m m2 : AppModel}
    (h : enterInlineEditMode m = some m2) (hi : viewportInv sbH mainH m) :
    viewportInv sbH mainH m2 := by
  obtain ⟨i1, i2, i3, i4, i5⟩ := hi
  rcases enterInlineEditMode_shape h with rfl | ⟨buf, fld, rfl⟩
  · exact ⟨i1, i2, i3, i4, i5⟩
  · refine ⟨i1, i2, i3, ?_, i5⟩
    rw [maxContentOf_congr rfl rfl rfl rfl rfl rfl]
    exact i4

theorem viewportInv_enterModal {sbH mainH : Int} {m m2 : AppModel}
    (h : enterModalEditMode m = some m2) (hi : viewportInv sbH mainH m) :
    viewportInv sbH mainH m2 := by
  obtain ⟨i1, i2, i3, i4, i5⟩ := hi
  rcases enterModalEditMode_shape h with rfl | ⟨buf, fld, rfl⟩
  · exact ⟨i1, i2, i3, i4, i5⟩
  · refine ⟨i1, i2, i3, ?_, i5⟩
    rw [maxContentOf_congr rfl rfl rfl rfl rfl rfl]
    exact i4

theorem viewportInv_setCellToNull {sbH mainH : Int} {m m2 : AppModel}
    (h : setCellToNull m = some m2) (hi : viewportInv sbH mainH m) :
    viewportInv sbH mainH m2 := by
  obtain ⟨i1, i2, i3, i4, i5⟩ := hi
  obtain ⟨hmc, hms, hss, hcr, htb⟩ := setCellToNull_frame h
  exact ⟨hss ▸ i1, by rw [hss, htb]; exact i2, hms ▸ i3, by rw [hms, hmc]; exact i4,
         hcr ▸ i5⟩

theorem isTypingKey_cases {k : Str} (h : isTypingKey k = true) :
    k.length = 1 ∨ k = keyBackspace := by
  unfold isTypingKey at h
  rcases Bool.or_eq_true_iff.mp h with h1 | h1
  · exact Or.inl (of_decide_eq_true h1)
  · exact Or.inr (of_decide_eq_true h1)

theorem isTypingKey_ne_enter {k : Str} (h : isTypingKey k = true) : k ≠ keyEnter := by
  intro heq
  rcases isTypingKey_cases h with h1 | h1 <;> rw [heq] at h1 <;> exact absurd h1 (by decide)

theorem isTypingKey_ne_ctrlN {k : Str} (h : isTypingKey k = true) : k ≠ keyCtrlN := by
  intro heq
  rcases isTypingKey_cases h with h1 | h1 <;> rw [heq] at h1 <;> exact absurd h1 (by decide)

theorem handleEditModeKeys_frame {m m2 : AppModel} {k : Str} (hk : k ≠ keyEnter)
    (h : handleEditModeKeys m k = some m2) : m2.tableData = m.tableData := by
  unfold handleEditModeKeys at h
  by_cases h1 : k = keyEsc
  · rw [if_pos h1] at h
    cases h
    rfl
  · rw [if_neg h1] at h
    by_cases h2 : k = keyEnter
    · exact absurd h2 hk
    · rw [if_neg h2] at h
      by_cases h3 : k = keyBackspace
      · rw [if_pos h3] at h
        cases h
        rfl
      · rw [if_neg h3] at h
        cases h
        rfl

theorem handleEditModalKeys_frame {m m2 : AppModel} {k : Str} (hk : k ≠ keyEnter)
    (h : handleEditModalKeys m k = some m2) : m2.tableData = m.tableData := by
  unfold handleEditModalKeys at h
  by_cases h1 : k = keyEsc
  · rw [if_pos h1] at h
    cases h
    rfl
  · rw [if_neg h1] at h
    by_cases h2 : k = keyEnter
    · exact absurd h2 hk
    · rw [if_neg h2] at h
      by_cases h3 : k = keyBackspace
      · rw [if_pos h3] at h
        cases h
        rfl
      · rw [if_neg h3] at h
        cases h
        rfl

theorem handleLeftPanelKeys_tableData (sbH : Int) (m : AppModel) (k : Str) :
    (handleLeftPanelKeys sbH m k).tableData = m.tableData := by
  unfold handleLeftPanelKeys
  by_cases hk1 : k = keyUp ∨ k = ['k']
  · rw [if_pos hk1]
    by_cases hs : m.selectedIdx > 0
    · rw [if_pos hs]
    · rw [if_neg hs]
  · rw [if_neg hk1]
    by_cases hk2 : k = keyDown ∨ k = ['j']
    · rw [if_pos hk2]
      by_cases hs : m.selectedIdx < (m.tables.length : Int) - 1
      · rw [if_pos hs]
      · rw [if_neg hs]
    · rw [if_neg hk2]
      by_cases hk3 : k = keyEnter
      · rw [if_pos hk3]
      · rw [if_neg hk3]
        by_cases hk4 : k = keyPgUp
        · rw [if_pos hk4]
        · rw [if_neg hk4]
          by_cases hk5 : k = keyPgDown
          · rw [if_pos hk5]
          · rw [if_neg hk5]
            by_cases hk6 : k = keyHome
            · rw [if_pos hk6]
            · rw [if_neg hk6]
              by_cases hk7 : k = keyEnd
              · rw [if_pos hk7]
              · rw [if_neg hk7]

theorem handleRightPanelKeys_typing_frame (mainH : Int) {m m2 : AppModel} {k : Str}
    (hk : isTypingKey k = true) (h : handleRightPanelKeys mainH m k = some m2) :
    m2.tableData = m.tableData := by
  unfold handleRightPanelKeys at h
  by_cases hk1 : k = ['d']
  · rw [if_pos hk1] at h
    cases h
    rfl
  · rw [if_neg hk1] at h
    by_cases hk2 : k = ['s']
    · rw [if_pos hk2] at h
      cases h
      rfl
    · rw [if_neg hk2] at h
      by_cases hk3 : k = ['i']
      · rw [if_pos hk3] at h
        cases h
        rfl
      · rw [if_neg hk3] at h
        by_cases hk4 : k = keyPgUp
        · rw [if_pos hk4] at h
          cases h
          rfl
        · rw [if_neg hk4] at h
          by_cases hk5 : k = keyPgDown
          · rw [if_pos hk5] at h
            cases h
            rfl
          · rw [if_neg hk5] at h
            by_cases hk6 : k = keyHome
            · rw [if_pos hk6] at h
              cases h
              rfl
            · rw [if_neg hk6] at h
              by_cases hk7 : k = keyEnd
              · rw [if_pos hk7] at h
                cases h
                rfl
              · rw [if_neg hk7] at h
                by_cases hmode : m.mode = ViewMode.dataMode
                · rw [if_pos hmode] at h
                  by_cases hk8 : k = keyUp ∨ k = ['k']
                  · rw [if_pos hk8] at h
                    cases h
                    split
                    · rfl
                    · rfl
                  · rw [if_neg hk8] at h
                    by_cases hk9 : k = keyDown ∨ k = ['j']
                    · rw [if_pos hk9] at h
                      cases h
                      split
                      · rfl
                      · rfl
                    · rw [if_neg hk9] at h
                      by_cases hk10 : k = keyArrowLeft ∨ k = ['h']
                      · rw [if_pos hk10] at h
                        cases h
                        split
                        · rfl
                        · rfl
                      · rw [if_neg hk10] at h
                        by_cases hk11 : k = keyArrowRight ∨ k = ['l']
                        · rw [if_pos hk11] at h
                          cases h
                          split
                          · rfl
                          · rfl
                        · rw [if_neg hk11] at h
                          by_cases hk12 : k = keyEnter ∨ k = ['e']
                          · rw [if_pos hk12] at h
                            rcases enterInlineEditMode_shape h with rfl | ⟨buf, fld, rfl⟩
                            · rfl
                            · rfl
                          · rw [if_neg hk12] at h
                            by_cases hk13 : k = keyCtrlE
                            · rw [if_pos hk13] at h
                              rcases enterModalEditMode_shape h with rfl | ⟨buf, fld, rfl⟩
                              · rfl
                              · rfl
                            · rw [if_neg hk13] at h
                              by_cases hk14 : k = keyCtrlN
                              · exact absurd hk14 (isTypingKey_ne_ctrlN hk)
                              · rw [if_neg hk14] at h
                                cases h
                                rfl
                · rw [if_neg hmode] at h
                  cases h
                  rfl

theorem handleLeftPanelKeys_esc (sbH : Int) (m : AppModel) :
    handleLeftPanelKeys sbH m keyEsc = m := by
  unfold handleLeftPanelKeys
  rw [if_neg (by decide), if_neg (by decide), if_neg (by decide), if_neg (by decide),
      if_neg (by decide), if_neg (by decide), if_neg (by decide)]

theorem handleRightPanelKeys_esc (mainH : Int) (m : AppModel) :
    handleRightPanelKeys mainH m keyEsc = some m := by
  unfold handleRightPanelKeys
  rw [if_neg (by decide), if_neg (by decide), if_neg (by decide), if_neg (by decide),
      if_neg (by decide), if_neg (by decide), if_neg (by decide)]
  by_cases hm : m.mode = ViewMode.dataMode
  · rw [if_pos hm]
    rw [if_neg (by decide), if_neg (by decide), if_neg (by decide), if_neg (by decide),
        if_neg (by decide), if_neg (by decide), if_neg (by decide)]
  · rw [if_neg hm]

theorem handleKeyPress_typing_frame (sbH mainH : Int) {m m2 : AppModel} {k : Str}
    (hk : isTypingKey k = true) (h : handleKeyPress sbH mainH m k = some m2) :
    m2.tableData = m.tableData := by
  have hne : k ≠ keyEnter := isTypingKey_ne_enter hk
  unfold handleKeyPress at h
  by_cases g1 : m.showEditModal = true
  · rw [if_pos g1] at h
    exact handleEditModalKeys_frame hne h
  · rw [if_neg g1] at h
    by_cases g2 : k = keyCtrlC ∨ k = ['q']
    · rw [if_pos g2] at h
      cases h
      rfl
    · rw [if_neg g2] at h
      by_cases g3 : k = keyTab
      · rw [if_pos g3] at h
        cases h
        split
        · rfl
        · rfl
      · rw [if_neg g3] at h
        by_cases g4 : k = ['1']
        · rw [if_pos g4] at h
          cases h
          split
          · rfl
          · rfl
        · rw [if_neg g4] at h
          by_cases g5 : k = ['2']
          · rw [if_pos g5] at h
            cases h
            rfl
          · rw [if_neg g5] at h
            by_cases g6 : k = ['?']
            · rw [if_pos g6] at h
              cases h
              rfl
            · rw [if_neg g6] at h
              by_cases g7 : m.editing = true
              · rw [if_pos g7] at h
                exact handleEditModeKeys_frame hne h
              · rw [if_neg g7] at h
                by_cases g8 : m.focusLeft = true
                · rw [if_pos g8] at h
                  cases h
                  exact handleLeftPanelKeys_tableData sbH m k
                · rw [if_neg g8] at h
                  exact handleRightPanelKeys_typing_frame mainH hk h

theorem handleKeyPress_esc (sbH mainH : Int) {m m2 : AppModel}
    (h : handleKeyPress sbH mainH m keyEsc = some m2) :
    m2.editing = false ∧ m2.showEditModal = false ∧ m2.tableData = m.tableData := by
  unfold handleKeyPress at h
  by_cases g1 : m.showEditModal = true
  · rw [if_pos g1] at h
    unfold handleEditModalKeys at h
    rw [if_pos rfl] at h
    cases h
    exact ⟨rfl, rfl, rfl⟩
  · rw [if_neg g1, if_neg (by decide), if_neg (by decide), if_neg (by decide),
        if_neg (by decide), if_neg (by decide)] at h
    by_cases g2 : m.editing = true
    · rw [if_pos g2] at h
      unfold handleEditModeKeys at h
      rw [if_pos rfl] at h
      cases h
      exact ⟨rfl, by simpa using g1, rfl⟩
    · rw [if_neg g2] at h
      by_cases g3 : m.focusLeft = true
      · rw [if_pos g3] at h
        cases h
        rw [handleLeftPanelKeys_esc]
        exact ⟨by simpa using g2, by simpa using g1, rfl⟩
      · rw [if_neg g3, handleRightPanelKeys_esc] at h
        cases h
        exact ⟨by simpa using g2, by simpa using g1, rfl⟩

theorem keysFold_none (sbH mainH : Int) (ks : List Str) :
    keysFold sbH mainH none ks = none := by
  induction ks with
  | nil => rfl
  | cons k ks ih => exact ih

theorem keysFold_typing_frame (sbH mainH : Int) :
    ∀ (ks : List Str) (m m2 : AppModel), (∀ k ∈ ks, isTypingKey k = true) →
      keysFold sbH mainH (some m) ks = some m2 → m2.tableData = m.tableData := by
  intro ks
  induction ks with
  | nil =>
    intro m m2 hks h
    have hmm : m = m2 := Option.some.inj h
    rw [← hmm]
  | cons k ks ih =>
    intro m m2 hks h
    have h2 : keysFold sbH mainH (handleKeyPress sbH mainH m k) ks = some m2 := h
    cases hs : handleKeyPress sbH mainH m k with
    | none =>
      rw [hs, keysFold_none] at h2
      exact Option.noConfusion h2
    | some mm =>
      rw [hs] at h2
      have hd1 : mm.tableData = m.tableData :=
        handleKeyPress_typing_frame sbH mainH (hks k (List.mem_cons_self k ks)) hs
      have hd2 : m2.tableData = mm.tableData :=
        ih mm m2 (fun x hx => hks x (List.mem_cons_of_mem k hx)) h2
      rw [hd2, hd1]

theorem tdiv_mul_le {x B : Int} (hx : 0 ≤ x) (hB : 0 ≤ B) : B * Int.tdiv x B ≤ x := by
  by_cases hB0 : B = 0
  · rw [hB0, Int.tdiv_zero]
    omega
  · rw [Int.tdiv_eq_ediv hx hB, mul_comm]
    exact Int.ediv_mul_le x (by omega)

theorem sum_tdiv_mul_le (e B : Int) (he : 0 ≤ e) (hB : 0 ≤ B) :
    ∀ l : List Int, (∀ x ∈ l, 0 ≤ x) →
      B * ((l.map (fun iw => Int.tdiv (e * iw) B)).sum) ≤ e * l.sum := by
  intro l
  induction l with
  | nil => intro _; simp
  | cons a as ih =>
    intro hmem
    simp only [List.map_cons, List.sum_cons, mul_add]
    have h1 : B * Int.tdiv (e * a) B ≤ e * a :=
      tdiv_mul_le (mul_nonneg he (hmem a (List.mem_cons_self a as))) hB
    have h2 := ih (fun x hx => hmem x (List.mem_cons_of_mem a hx))
    exact add_le_add h1 h2

theorem sum_tdiv_le (e B : Int) (he : 0 ≤ e) (l : List Int)
    (hmem : ∀ x ∈ l, 0 ≤ x) (hsum : l.sum ≤ B) :
    (l.map (fun iw => Int.tdiv (e * iw) B)).sum ≤ e := by
  by_cases hB0 : B = 0
  · have hz : ∀ l2 : List Int, ((l2.map (fun iw => Int.tdiv (e * iw) B)).sum) = 0 := by
      intro l2
      induction l2 with
      | nil => simp
      | cons a as ih2 => simp [hB0, Int.tdiv_zero, ih2]
    rw [hz]
    exact he
  · have hsum0 : 0 ≤ l.sum := List.sum_nonneg hmem
    have hBpos : 0 < B := lt_of_le_of_ne (le_trans hsum0 hsum) (Ne.symm hB0)
    have hmul := sum_tdiv_mul_le e B he (le_of_lt hBpos) l hmem
    have hmul2 : e * l.sum ≤ e * B := mul_le_mul_of_nonneg_left hsum he
    have hSB := le_trans hmul hmul2
    rw [mul_comm e B] at hSB
    exact le_of_mul_le_mul_left hSB hBpos

theorem sum_set_int (l : List Int) (i : Nat) (a : Int) (h : i < l.length) :
    (l.set i a).sum = l.sum - l[i] + a := by
  induction l generalizing i with
  | nil => simp at h
  | cons b bs ih =>
    cases i with
    | zero =>
      simp only [List.set_cons_zero, List.sum_cons, List.getElem_cons_zero]
      ring
    | succ j =>
      simp only [List.set_cons_succ, List.sum_cons, List.getElem_cons_succ]
      rw [ih j (by simpa using h)]
      ring

theorem growCol_snd_nonneg (e B mw iw : Int) (he : 0 ≤ e) (hB : 0 ≤ B)
    (h0 : 0 ≤ iw) (h1 : mw ≤ iw) : 0 ≤ (growCol e B mw iw).2 := by
  unfold growCol
  dsimp only
  split_ifs with hc
  · omega
  · exact Int.tdiv_nonneg (mul_nonneg he h0) hB

theorem growCol_snd_le (e B mw iw : Int) :
    (growCol e B mw iw).2 ≤ Int.tdiv (e * iw) B := by
  unfold growCol
  dsimp only
  split_ifs with hc <;> omega

theorem growCol_fst (e B mw iw : Int) :
    (growCol e B mw iw).1 = mw + (growCol e B mw iw).2 := rfl

theorem shrinkCol_ge_min3 (r B mw iw : Int) : min 3 mw ≤ shrinkCol r B mw iw := by
  unfold shrinkCol
  dsimp only
  split_ifs <;> omega

theorem grow_snd_sum_le (e B : Int) :
    ∀ (mins ideals : List Int), mins.length = ideals.length →
      ((List.zipWith (growCol e B) mins ideals).map Prod.snd).sum ≤
        (ideals.map (fun iw => Int.tdiv (e * iw) B)).sum := by
  intro mins
  induction mins with
  | nil =>
    intro ideals hl
    cases ideals with
    | nil => simp
    | cons b bs => exact absurd hl (by simp)
  | cons a as ih =>
    intro ideals hl
    cases ideals with
    | nil => exact absurd hl (by simp)
    | cons b bs =>
      simp only [List.zipWith_cons_cons, List.map_cons, List.sum_cons]
      exact add_le_add (growCol_snd_le e B a b) (ih bs (by simpa using hl))

theorem grow_fst_sum (e B : Int) :
    ∀ (mins ideals : List Int), mins.length = ideals.length →
      ((List.zipWith (growCol e B) mins ideals).map Prod.fst).sum =
        mins.sum + ((List.zipWith (growCol e B) mins ideals).map Prod.snd).sum := by
  intro mins
  induction mins with
  | nil =>
    intro ideals hl
    cases ideals with
    | nil => simp
    | cons b bs => exact absurd hl (by simp)
  | cons a as ih =>
    intro ideals hl
    cases ideals with
    | nil => exact absurd hl (by simp)
    | cons b bs =>
      simp only [List.zipWith_cons_cons, List.map_cons, List.sum_cons]
      rw [growCol_fst, ih bs (by simpa using hl)]
      ring

theorem ideals_entry_nonneg {mins ideals : List Int} {N : Nat}
    (hlm : mins.length = N) (hli : ideals.length = N)
    (hmi : ∀ i, i < N → 0 ≤ mins.getD i 0 ∧ mins.getD i 0 ≤ ideals.getD i 0) :
    ∀ x ∈ ideals, 0 ≤ x := by
  intro x hx
  obtain ⟨i, hi, hval⟩ := List.mem_iff_getElem.mp hx
  obtain ⟨h0, h1⟩ := hmi i (by omega)
  rw [List.getD_eq_getElem mins 0 (by omega), List.getD_eq_getElem ideals 0 hi] at h0 h1
  omega

theorem getD_set_self_int (l : List Int) (i : Nat) (a : Int) (h : i < l.length) :
    (l.set i a).getD i 0 = a := by
  have h2 : i < (l.set i a).length := by
    rw [List.length_set]
    exact h
  rw [List.getD_eq_getElem _ 0 h2]
  exact List.getElem_set_self h2

theorem getD_set_ne_int (l : List Int) (i j : Nat) (a : Int) (hne : j ≠ i) :
    (l.set i a).getD j 0 = l.getD j 0 := by
  by_cases hj : j < l.length
  · have h2 : j < (l.set i a).length := by
      rw [List.length_set]
      exact hj
    rw [List.getD_eq_getElem _ 0 h2, List.getD_eq_getElem _ 0 hj]
    exact List.getElem_set_ne (fun hh => hne hh.symm) h2
  · have h2 : ¬ j < (l.set i a).length := by
      rw [List.length_set]
      exact hj
    rw [List.getD_eq_default _ 0 (by omega), List.getD_eq_default _ 0 (by rw [List.length_set] at h2; omega)]

theorem grow_result1_getD (e B : Int) (he : 0 ≤ e) (hB : 0 ≤ B)
    (mins ideals : List Int) (hl : mins.length = ideals.length)
    (hmi : ∀ i, i < mins.length → 0 ≤ mins.getD i 0 ∧ mins.getD i 0 ≤ ideals.getD i 0) :
    ∀ i, i < mins.length →
      mins.getD i 0 ≤ ((List.zipWith (growCol e B) mins ideals).map Prod.fst).getD i 0 := by
  intro i hi
  have hzl : i < (List.zipWith (growCol e B) mins ideals).length := by
    rw [List.length_zipWith]
    omega
  have hml : i < ((List.zipWith (growCol e B) mins ideals).map Prod.fst).length := by
    rw [List.length_map]
    exact hzl
  rw [List.getD_eq_getElem _ 0 hml, List.getElem_map, List.getElem_zipWith,
      List.getD_eq_getElem mins 0 hi]
  obtain ⟨h0, h1⟩ := hmi i hi
  have hil : i < ideals.length := by omega
  rw [List.getD_eq_getElem mins 0 hi] at h0 h1
  rw [List.getD_eq_getElem ideals 0 hil] at h1
  have hsnd := growCol_snd_nonneg e B mins[i] ideals[i] he hB (by omega) h1
  rw [growCol_fst]
  omega

theorem growWidths_length (u : Int) (N : Nat) (mins ideals : List Int)
    (hlm : mins.length = N) (hli : ideals.length = N) :
    (growWidths u N mins ideals).length = N := by
  unfold growWidths
  dsimp only
  split_ifs with hc
  · rw [List.length_set, List.length_map, List.length_zipWith, hlm, hli]
    exact Nat.min_self N
  · rw [List.length_map, List.length_zipWith, hlm, hli]
    exact Nat.min_self N

theorem growWidths_getD (u : Int) (N : Nat) (mins ideals : List Int)
    (hlm : mins.length = N) (hli : ideals.length = N)
    (hmi : ∀ i, i < N → 0 ≤ mins.getD i 0 ∧ mins.getD i 0 ≤ ideals.getD i 0)
    (hu : mins.sum < u) :
    ∀ i, i < N → mins.getD i 0 ≤ (growWidths u N mins ideals).getD i 0 := by
  intro i hi
  have he : (0:Int) ≤ u - mins.sum := by omega
  have hB : (0:Int) ≤ ideals.sum :=
    List.sum_nonneg (ideals_entry_nonneg hlm hli hmi)
  have hbase := grow_result1_getD (u - mins.sum) ideals.sum he hB mins ideals
    (by omega) (fun j hj => hmi j (by omega)) i (by omega)
  unfold growWidths
  dsimp only
  split_ifs with hc
  · set r1 := (List.zipWith (growCol (u - mins.sum) ideals.sum) mins ideals).map Prod.fst
      with hr1def
    have hr1l : r1.length = N := by
      rw [hr1def, List.length_map, List.length_zipWith, hlm, hli]
      exact Nat.min_self N
    by_cases hii : i = N - 1
    · subst hii
      rw [getD_set_self_int r1 _ _ (by omega)]
      omega
    · rw [getD_set_ne_int r1 _ _ _ hii]
      exact hbase
  · exact hbase

theorem growWidths_sum (u : Int) (N : Nat) (mins ideals : List Int)
    (hlm : mins.length = N) (hli : ideals.length = N)
    (hmi : ∀ i, i < N → 0 ≤ mins.getD i 0 ∧ mins.getD i 0 ≤ ideals.getD i 0)
    (hu : mins.sum < u) :
    (growWidths u N mins ideals).sum ≤ u := by
  have he : (0:Int) ≤ u - mins.sum := by omega
  have hideals : ∀ x ∈ ideals, 0 ≤ x := ideals_entry_nonneg hlm hli hmi
  have hused : ((List.zipWith (growCol (u - mins.sum) ideals.sum) mins ideals).map
      Prod.snd).sum ≤ u - mins.sum :=
    le_trans (grow_snd_sum_le _ _ mins ideals (by omega))
      (sum_tdiv_le _ _ he ideals hideals (le_refl _))
  have hsum1 := grow_fst_sum (u - mins.sum) ideals.sum mins ideals (by omega)
  unfold growWidths
  dsimp only
  split_ifs with hc
  · set r1 := (List.zipWith (growCol (u - mins.sum) ideals.sum) mins ideals).map Prod.fst
      with hr1def
    have hr1l : r1.length = N := by
      rw [hr1def, List.length_map, List.length_zipWith, hlm, hli]
      exact Nat.min_self N
    have hNpos : 0 < N := hc.2
    have hlt : N - 1 < r1.length := by omega
    rw [sum_set_int r1 _ _ hlt, List.getD_eq_getElem r1 0 hlt]
    omega
  · omega

theorem shrinkWidths_length (u : Int) (N : Nat) (mins ideals : List Int)
    (hlm : mins.length = N) (hli : ideals.length = N) :
    (shrinkWidths u mins ideals).length = N := by
  unfold shrinkWidths
  rw [List.length_zipWith, hlm, hli]
  exact Nat.min_self N

theorem shrinkWidths_getD (u : Int) (N : Nat) (mins ideals : List Int)
    (hlm : mins.length = N) (hli : ideals.length = N) :
    ∀ i, i < N → min 3 (mins.getD i 0) ≤ (shrinkWidths u mins ideals).getD i 0 := by
  intro i hi
  have hzl : i < (List.zipWith (shrinkCol (mins.sum - u) ideals.sum) mins ideals).length := by
    rw [List.length_zipWith]
    omega
  unfold shrinkWidths
  rw [List.getD_eq_getElem _ 0 hzl, List.getElem_zipWith,
      List.getD_eq_getElem mins 0 (by omega)]
  exact shrinkCol_ge_min3 _ _ _ _

/-! ### Claim theorems -/

/-- C4: `TruncateWithEllipsis s w` returns `s` unchanged iff `len s ≤ w`;
the result length is always at most `w`; when `w ≤ 3` the result is the
first `w` characters with no ellipsis; otherwise, when truncation occurs,
it is the first `w − 3` characters followed by `...`; and
Truncate("Electronics", 5) = "El...". -/
theorem truncateWithEllipsis_spec (s : Str) (w : Nat) :
    (TruncateWithEllipsis s w = s ↔ s.length ≤ w) ∧
    (TruncateWithEllipsis s w).length ≤ w ∧
    (w ≤ 3 → TruncateWithEllipsis s w = s.take w) ∧
    (3 < w → w < s.length →
      TruncateWithEllipsis s w = s.take (w - 3) ++ ['.', '.', '.']) ∧
    TruncateWithEllipsis ['E', 'l', 'e', 'c', 't', 'r', 'o', 'n', 'i', 'c', 's'] 5 =
      ['E', 'l', '.', '.', '.'] := by
  refine ⟨?_, ?_, ?_, ?_, by decide⟩
  · unfold TruncateWithEllipsis
    by_cases h1 : s.length ≤ w
    · rw [if_pos h1]
      exact ⟨fun _ => h1, fun _ => rfl⟩
    · rw [if_neg h1]
      push_neg at h1
      constructor
      · intro heq
        by_cases h2 : w ≤ 3
        · rw [if_pos h2] at heq
          have hl := congrArg List.length heq
          rw [List.length_take] at hl
          omega
        · rw [if_neg h2] at heq
          have hl := congrArg List.length heq
          simp only [List.length_append, List.length_take, List.length_cons,
            List.length_nil] at hl
          omega
      · intro hle
        omega
  · unfold TruncateWithEllipsis
    by_cases h1 : s.length ≤ w
    · rw [if_pos h1]
      exact h1
    · rw [if_neg h1]
      push_neg at h1
      by_cases h2 : w ≤ 3
      · rw [if_pos h2, List.length_take]
        omega
      · rw [if_neg h2]
        simp only [List.length_append, List.length_take, List.length_cons, List.length_nil]
        omega
  · intro hw
    unfold TruncateWithEllipsis
    by_cases h1 : s.length ≤ w
    · rw [if_pos h1, List.take_of_length_le h1]
    · rw [if_neg h1, if_pos hw]
  · intro hw hlen
    unfold TruncateWithEllipsis
    rw [if_neg (by omega), if_neg (by omega)]

/-- C4 witness: the theorem instantiated at "Electronics" and width 5, with
both hypotheses of the truncation branch discharged concretely. -/
theorem truncateWithEllipsis_spec_witness :
    TruncateWithEllipsis ['E', 'l', 'e', 'c', 't', 'r', 'o', 'n', 'i', 'c', 's'] 5 =
      (['E', 'l', 'e', 'c', 't', 'r', 'o', 'n', 'i', 'c', 's'] : Str).take 2 ++
        ['.', '.', '.'] :=
  (truncateWithEllipsis_spec ['E', 'l', 'e', 'c', 't', 'r', 'o', 'n', 'i', 'c', 's']
    5).2.2.2.1 (by decide) (by decide)

/-- C1 counterexample: in `exM1` the edited column has declared type
`tinyint(1)` (which the bool coercion row matches) and is nullable, the edit
buffer is empty, and yet the committed cell value is the empty Text value,
not Null: the claim "the committed cell value is Null" fails on the code. -/
theorem applyEdit_emptyNullable_counterexample :
    exM1.editBuffer = [] ∧
    assocLookup exM1.tableMetadata ['u'] =
      some [{ name := ['A'], colType := strTinyint1, nullable := true, key := [] }] ∧
    containsStr strTinyint1 strTinyint1 = true ∧
    (applyEdit exM1).map (fun m2 => cellAt m2 ['u'] 0 ['A']) =
      some (some (CellValue.text [])) ∧
    CellValue.text [] ≠ CellValue.null := by
  refine ⟨by decide, by decide, by decide, by decide, by decide⟩

/-- C1 (amended): for every edit commit on a column whose declared type
contains one of the numeric or boolean keywords, if the edit buffer is the
empty string and the column is nullable, the committed cell value is the
empty Text value (the empty-and-nullable case is handled before type
dispatch in the source, src/unnamed/part_000:732). -/
theorem applyEdit_empty_nullable
    (m : AppModel) (table : Str) (data : List RowData)
    (metadata : List ColumnMetadata) (cm : ColumnMetadata) (row : RowData)
    (htab : listGetInt m.tables m.activeTableIdx = some table)
    (hdata : assocLookup m.tableData table = some data)
    (hmeta : assocLookup m.tableMetadata table = some metadata)
    (hrow : listGetInt data (targetRowOf m) = some row)
    (hcol : listGetInt metadata (targetColOf m) = some cm)
    (hbuf : m.editBuffer = [])
    (hnul : cm.nullable = true)
    (_htype : containsStr cm.colType strInt = true ∨
             containsStr cm.colType strFloat = true ∨
             containsStr cm.colType strDouble = true ∨
             containsStr cm.colType strDecimal = true ∨
             containsStr cm.colType strBool = true ∨
             containsStr cm.colType strTinyint1 = true) :
    ∃ m2, applyEdit m = some m2 ∧
      cellAt m2 table (targetRowOf m) cm.name = some (CellValue.text []) := by
  obtain ⟨ht0, ht1⟩ := listGetInt_bounds htab
  obtain ⟨hr0, hr1⟩ := listGetInt_bounds hrow
  obtain ⟨hc0, hc1⟩ := listGetInt_bounds hcol
  unfold applyEdit
  rw [if_neg (by omega)]
  simp only [htab, hdata, hmeta]
  rw [if_neg (by omega)]
  simp only [hrow, hcol]
  rw [if_pos ⟨hbuf, hnul⟩]
  refine ⟨_, rfl, ?_⟩
  unfold cellAt
  simp only [assocLookup_assocSet_self]
  rw [listGetInt_set_self hrow]
  simp only [Option.map_some']
  rw [rowGet_rowSet_self]

/-- C1 witness: the amended theorem applied to the concrete tinyint(1)
state `exM1`, every hypothesis discharged by evaluation. -/
theorem applyEdit_empty_nullable_witness :
    ∃ m2, applyEdit exM1 = some m2 ∧
      cellAt m2 ['u'] (targetRowOf exM1) ['A'] = some (CellValue.text []) :=
  applyEdit_empty_nullable exM1 ['u']
    [[(['A'], CellValue.bool false)]]
    [{ name := ['A'], colType := strTinyint1, nullable := true, key := [] }]
    { name := ['A'], colType := strTinyint1, nullable := true, key := [] }
    [(['A'], CellValue.bool false)]
    (by decide) (by decide) (by decide) (by decide) (by decide) (by decide) (by decide)
    (Or.inr (Or.inr (Or.inr (Or.inr (Or.inr (by decide))))))

/-- C5: committing a buffer that fails integer parsing on a non-nullable
column whose declared type contains `int` keeps the target cell's prior
value and leaves every other cell of the row unchanged
(src/unnamed/part_000:736–745). -/
theorem applyEdit_int_parse_fail_keeps
    (m : AppModel) (table : Str) (data : List RowData)
    (metadata : List ColumnMetadata) (cm : ColumnMetadata) (row : RowData)
    (htab : listGetInt m.tables m.activeTableIdx = some table)
    (hdata : assocLookup m.tableData table = some data)
    (hmeta : assocLookup m.tableMetadata table = some metadata)
    (hrow : listGetInt data (targetRowOf m) = some row)
    (hcol : listGetInt metadata (targetColOf m) = some cm)
    (hint : containsStr cm.colType strInt = true)
    (hnn : cm.nullable = false)
    (hparse : ParseInt m.editBuffer = none) :
    ∃ m2, applyEdit m = some m2 ∧
      ∀ k, cellAt m2 table (targetRowOf m) k = cellAt m table (targetRowOf m) k := by
  obtain ⟨ht0, ht1⟩ := listGetInt_bounds htab
  obtain ⟨hr0, hr1⟩ := listGetInt_bounds hrow
  obtain ⟨hc0, hc1⟩ := listGetInt_bounds hcol
  unfold applyEdit
  rw [if_neg (by omega)]
  simp only [htab, hdata, hmeta]
  rw [if_neg (by omega)]
  simp only [hrow, hcol]
  rw [if_neg (fun hc => by rw [hnn] at hc; exact absurd hc.2 (by simp))]
  rw [if_pos hint]
  simp only [hparse]
  rw [if_neg (by rw [hnn]; simp)]
  refine ⟨_, rfl, fun k => ?_⟩
  unfold cellAt
  simp only [assocLookup_assocSet_self, hdata]
  rw [listGetInt_set_self hrow, hrow]
  simp only [Option.map_some']
  by_cases hk : k = cm.name
  · subst hk
    rw [rowGet_rowSet_self]
  · rw [rowGet_rowSet_ne _ _ _ _ hk]

/-- C5 witness: the theorem applied to the concrete state `exM2` (int
column, not nullable, buffer "abc"). -/
theorem applyEdit_int_parse_fail_keeps_witness :
    ∃ m2, applyEdit exM2 = some m2 ∧
      ∀ k, cellAt m2 ['u'] (targetRowOf exM2) k = cellAt exM2 ['u'] (targetRowOf exM2) k :=
  applyEdit_int_parse_fail_keeps exM2 ['u']
    [[(['I'], CellValue.int 7)]]
    [{ name := ['I'], colType := strInt, nullable := false, key := [] }]
    { name := ['I'], colType := strInt, nullable := false, key := [] }
    [(['I'], CellValue.int 7)]
    (by decide) (by decide) (by decide) (by decide) (by decide) (by decide) (by decide)
    (by decide)

/-- C6: committing a non-empty buffer on a column whose declared type matches
none of the int/float/double/decimal/bool/tinyint(1) patterns stores the
buffer literally as the cell's Text value — including a buffer spelling the
word NULL (src/unnamed/part_000:768–778). -/
theorem applyEdit_text_literal
    (m : AppModel) (table : Str) (data : List RowData)
    (metadata : List ColumnMetadata) (cm : ColumnMetadata) (row : RowData)
    (htab : listGetInt m.tables m.activeTableIdx = some table)
    (hdata : assocLookup m.tableData table = some data)
    (hmeta : assocLookup m.tableMetadata table = some metadata)
    (hrow : listGetInt data (targetRowOf m) = some row)
    (hcol : listGetInt metadata (targetColOf m) = some cm)
    (hni : containsStr cm.colType strInt = false)
    (hnf : containsStr cm.colType strFloat = false)
    (hnd : containsStr cm.colType strDouble = false)
    (hndec : containsStr cm.colType strDecimal = false)
    (hnb : containsStr cm.colType strBool = false)
    (hnt : containsStr cm.colType strTinyint1 = false)
    (hne : m.editBuffer ≠ []) :
    ∃ m2, applyEdit m = some m2 ∧
      cellAt m2 table (targetRowOf m) cm.name = some (CellValue.text m.editBuffer) := by
  obtain ⟨ht0, ht1⟩ := listGetInt_bounds htab
  obtain ⟨hr0, hr1⟩ := listGetInt_bounds hrow
  obtain ⟨hc0, hc1⟩ := listGetInt_bounds hcol
  unfold applyEdit
  rw [if_neg (by omega)]
  simp only [htab, hdata, hmeta]
  rw [if_neg (by omega)]
  simp only [hrow, hcol]
  rw [if_neg (fun hc => hne hc.1)]
  rw [if_neg (by rw [hni]; simp)]
  rw [if_neg (by rw [hnf, hnd, hndec]; simp)]
  rw [if_neg (by rw [hnb, hnt]; simp)]
  rw [if_neg (fun hc => hne hc.1)]
  refine ⟨_, rfl, ?_⟩
  unfold cellAt
  simp only [assocLookup_assocSet_self]
  rw [listGetInt_set_self hrow]
  simp only [Option.map_some']
  rw [rowGet_rowSet_self]

/-- C6 witness: the theorem applied to the concrete state `exM3`
(varchar(50) column, buffer spelling NULL), together with the fact that the
committed Text value is not Null. -/
theorem applyEdit_text_literal_witness :
    (∃ m2, applyEdit exM3 = some m2 ∧
      cellAt m2 ['u'] (targetRowOf exM3) ['S'] = some (CellValue.text strNULLword)) ∧
    CellValue.text strNULLword ≠ CellValue.null :=
  ⟨applyEdit_text_literal exM3 ['u']
    [[(['S'], CellValue.text ['x'])]]
    [{ name := ['S'], colType := strVarchar50, nullable := true, key := [] }]
    { name := ['S'], colType := strVarchar50, nullable := true, key := [] }
    [(['S'], CellValue.text ['x'])]
    (by decide) (by decide) (by decide) (by decide) (by decide) (by decide) (by decide)
    (by decide) (by decide) (by decide) (by decide) (by decide),
   by decide⟩

/-- C8: entering edit mode — inline or modal — in data mode seeds the edit
buffer with `getCurrentCellValue`, which is the `FormatValue` rendering of
the cell under the cursor; and a cell holding Null yields the empty string,
not the word NULL (src/unnamed/part_000:574–606 and 662–691). -/
theorem enterEdit_seeds_buffer (m : AppModel) :
    (∀ buf m2, m.mode = .dataMode →
      getCurrentCellValue m = some buf →
      enterInlineEditMode m = some m2 →
      m2.editBuffer = buf ∧ m2.editing = true) ∧
    (∀ buf m2, m.mode = .dataMode →
      getCurrentCellValue m = some buf →
      enterModalEditMode m = some m2 →
      m2.editBuffer = buf ∧ m2.editing = true ∧ m2.showEditModal = true) ∧
    (∀ table data row metadata cm val,
      listGetInt m.tables m.activeTableIdx = some table →
      assocLookup m.tableData table = some data →
      listGetInt data m.cursorRow = some row →
      assocLookup m.tableMetadata table = some metadata →
      listGetInt metadata m.cursorCol = some cm →
      assocLookup row cm.name = some val →
      getCurrentCellValue m =
        some (if val = CellValue.null then [] else FormatValue val)) := by
  refine ⟨?_, ?_, ?_⟩
  · intro buf m2 hmode hbuf hin
    unfold enterInlineEditMode at hin
    rw [if_neg (by simp [hmode])] at hin
    rw [hbuf] at hin
    cases hf : getCurrentFieldName m <;> rw [hf] at hin
    · cases hin
    · cases hin
      exact ⟨rfl, rfl⟩
  · intro buf m2 hmode hbuf hin
    unfold enterModalEditMode at hin
    rw [if_neg (by simp [hmode])] at hin
    rw [hbuf] at hin
    cases hf : getCurrentFieldName m <;> rw [hf] at hin
    · cases hin
    · cases hin
      exact ⟨rfl, rfl, rfl⟩
  · intro table data row metadata cm val htab hdata hrow hmeta hcol hval
    obtain ⟨ht0, ht1⟩ := listGetInt_bounds htab
    obtain ⟨hr0, hr1⟩ := listGetInt_bounds hrow
    obtain ⟨hc0, hc1⟩ := listGetInt_bounds hcol
    unfold getCurrentCellValue
    rw [if_neg (by omega)]
    simp only [htab, hdata]
    rw [if_neg (by omega)]
    simp only [hrow, hmeta]
    rw [if_neg (by omega)]
    simp only [hcol, hval]
    split
    · rfl
    · rfl

/-- C8 witness: the theorem applied to `exM4` (a Null cell under the
cursor): entering the modal editor seeds the empty buffer. -/
theorem enterEdit_seeds_buffer_witness :
    getCurrentCellValue exM4 = some [] ∧
    ∃ m2, enterModalEditMode exM4 = some m2 ∧ m2.editBuffer = [] ∧ m2.editing = true := by
  have hnull := (enterEdit_seeds_buffer exM4).2.2 ['u']
    [[(['A'], CellValue.null)]]
    [(['A'], CellValue.null)]
    [{ name := ['A'], colType := strVarchar50, nullable := true, key := [] }]
    { name := ['A'], colType := strVarchar50, nullable := true, key := [] }
    CellValue.null
    (by decide) (by decide) (by decide) (by decide) (by decide) (by decide)
  rw [if_pos rfl] at hnull
  refine ⟨hnull, ?_⟩
  cases hm : enterModalEditMode exM4
  · exact absurd hm (by decide)
  · obtain ⟨hb, he, -⟩ := (enterEdit_seeds_buffer exM4).2.1 [] _ (by decide) hnull hm
    exact ⟨_, rfl, hb, he⟩

/-- C9 counterexample: the single-character key é (code 233) is a printable
letter, not a control character, yet the inline edit handler rejects it and
leaves the buffer unchanged: "no input is rejected except non-printable
control characters" fails on the code (src/unnamed/part_000:318–321 accepts
only ASCII 32–126). -/
theorem editKeys_nonascii_counterexample :
    32 ≤ Char.toNat 'é' ∧
    handleEditModeKeys exM1 ['é'] = some exM1 ∧
    exM1.editBuffer ++ ['é'] ≠ exM1.editBuffer := by
  refine ⟨by decide, by decide, by decide⟩

/-- C9 (amended): during edit mode, a default key event is appended verbatim
to the buffer iff it is a single character in the printable ASCII range
32–126 (inline handler), respectively any single-byte character of code at
most 127 (modal handler); every other default key — including printable
non-ASCII characters — is ignored; backspace removes exactly the last
character of the buffer, a no-op when the buffer is empty. -/
theorem editKeys_buffer_spec (m : AppModel) (c : Char) :
    (32 ≤ c.toNat ∧ c.toNat ≤ 126 →
      handleEditModeKeys m [c] = some { m with editBuffer := m.editBuffer ++ [c] }) ∧
    (¬(32 ≤ c.toNat ∧ c.toNat ≤ 126) → handleEditModeKeys m [c] = some m) ∧
    (c.toNat ≤ 127 →
      handleEditModalKeys m [c] = some { m with editBuffer := m.editBuffer ++ [c] }) ∧
    (127 < c.toNat → handleEditModalKeys m [c] = some m) ∧
    handleEditModeKeys m keyBackspace =
      some { m with editBuffer := m.editBuffer.dropLast } ∧
    handleEditModalKeys m keyBackspace =
      some { m with editBuffer := m.editBuffer.dropLast } := by
  have hsingle : ∀ s : Str, s.length = 1 → s ≠ keyEsc ∧ s ≠ keyEnter ∧ s ≠ keyBackspace := by
    intro s hs
    refine ⟨?_, ?_, ?_⟩ <;> intro h <;> rw [h] at hs <;> exact absurd hs (by decide)
  obtain ⟨hc1, hc2, hc3⟩ := hsingle [c] rfl
  have hbs : (if m.editBuffer.length > 0 then m.editBuffer.dropLast else m.editBuffer) =
      m.editBuffer.dropLast := by
    cases m.editBuffer
    · simp
    · simp
  refine ⟨?_, ?_, ?_, ?_, ?_, ?_⟩
  · intro hc
    unfold handleEditModeKeys
    rw [if_neg hc1, if_neg hc2, if_neg hc3]
    simp only [if_pos hc]
  · intro hc
    unfold handleEditModeKeys
    rw [if_neg hc1, if_neg hc2, if_neg hc3]
    simp only [if_neg hc]
  · intro hc
    unfold handleEditModalKeys
    rw [if_neg hc1, if_neg hc2, if_neg hc3]
    simp only [if_pos hc]
  · intro hc
    unfold handleEditModalKeys
    rw [if_neg hc1, if_neg hc2, if_neg hc3]
    simp only [if_neg (show ¬c.toNat ≤ 127 from by omega)]
  · unfold handleEditModeKeys
    rw [if_neg (by decide), if_neg (by decide), if_pos rfl, hbs]
  · unfold handleEditModalKeys
    rw [if_neg (by decide), if_neg (by decide), if_pos rfl, hbs]

/-- C9 witness: the amended theorem applied to the printable character a and
to backspace on the concrete state `exM1`. -/
theorem editKeys_buffer_spec_witness :
    handleEditModeKeys exM1 ['a'] =
      some { exM1 with editBuffer := exM1.editBuffer ++ ['a'] } ∧
    handleEditModeKeys exM1 keyBackspace =
      some { exM1 with editBuffer := exM1.editBuffer.dropLast } :=
  ⟨(editKeys_buffer_spec exM1 'a').1 (by decide),
   (editKeys_buffer_spec exM1 'a').2.2.2.2.1⟩

/-- C10: `applyEdit` and `setCellToNull` are total and atomic at the state
boundary: with the active table index out of range, the target row or column
index at or beyond the counts, or the active table missing from the data or
metadata maps, both operations return the entire state unchanged and never
panic; `setCellToNull` also leaves the state unchanged when the cursor
column is not nullable, and otherwise changes only the cursor's cell,
setting it to Null (src/unnamed/part_000:694–727 and 788–829). -/
theorem commit_total_atomic (m : AppModel) :
    ((m.activeTableIdx < 0 ∨ m.activeTableIdx ≥ (m.tables.length : Int)) →
      applyEdit m = some m ∧ setCellToNull m = some m) ∧
    (∀ table, listGetInt m.tables m.activeTableIdx = some table →
      ((assocLookup m.tableData table = none →
          applyEdit m = some m ∧ setCellToNull m = some m) ∧
       (assocLookup m.tableMetadata table = none →
          applyEdit m = some m ∧ setCellToNull m = some m) ∧
       (∀ data, assocLookup m.tableData table = some data →
          (targetRowOf m ≥ (data.length : Int) → applyEdit m = some m) ∧
          (m.cursorRow ≥ (data.length : Int) → setCellToNull m = some m)) ∧
       (∀ metadata, assocLookup m.tableMetadata table = some metadata →
          (targetColOf m ≥ (metadata.length : Int) → applyEdit m = some m) ∧
          (m.cursorCol ≥ (metadata.length : Int) → setCellToNull m = some m)) ∧
       (∀ metadata cm, assocLookup m.tableMetadata table = some metadata →
          listGetInt metadata m.cursorCol = some cm → cm.nullable = false →
          setCellToNull m = some m) ∧
       (∀ data metadata cm row,
          m.mode = .dataMode → m.focusLeft = false →
          assocLookup m.tableData table = some data →
          assocLookup m.tableMetadata table = some metadata →
          listGetInt data m.cursorRow = some row →
          listGetInt metadata m.cursorCol = some cm →
          cm.nullable = true →
          ∃ td2, setCellToNull m = some { m with tableData := td2 } ∧
            cellAt { m with tableData := td2 } table m.cursorRow cm.name =
              some CellValue.null ∧
            (∀ k, k ≠ cm.name →
              cellAt { m with tableData := td2 } table m.cursorRow k =
                cellAt m table m.cursorRow k) ∧
            (∀ r, r ≠ m.cursorRow → ∀ k,
              cellAt { m with tableData := td2 } table r k = cellAt m table r k) ∧
            (∀ t, t ≠ table →
              assocLookup td2 t = assocLookup m.tableData t)))) := by
  constructor
  · intro hoob
    constructor
    · unfold applyEdit
      rw [if_pos hoob]
    · unfold setCellToNull
      by_cases hg : m.mode ≠ ViewMode.dataMode ∨ m.focusLeft = true
      · rw [if_pos hg]
      · rw [if_neg hg, if_pos hoob]
  · intro table htab
    obtain ⟨ht0, ht1⟩ := listGetInt_bounds htab
    have hng : ¬(m.activeTableIdx < 0 ∨ m.activeTableIdx ≥ (m.tables.length : Int)) := by omega
    refine ⟨?_, ?_, ?_, ?_, ?_, ?_⟩
    · intro hdn
      constructor
      · unfold applyEdit
        rw [if_neg hng]
        simp only [htab, hdn]
      · unfold setCellToNull
        by_cases hg : m.mode ≠ ViewMode.dataMode ∨ m.focusLeft = true
        · rw [if_pos hg]
        · rw [if_neg hg, if_neg hng]
          simp only [htab, hdn]
    · intro hmn
      constructor
      · unfold applyEdit
        rw [if_neg hng]
        simp only [htab, hmn]
        cases hd : assocLookup m.tableData table <;> rfl
      · unfold setCellToNull
        by_cases hg : m.mode ≠ ViewMode.dataMode ∨ m.focusLeft = true
        · rw [if_pos hg]
        · rw [if_neg hg, if_neg hng]
          simp only [htab, hmn]
          cases hd : assocLookup m.tableData table <;> rfl
    · intro data hdata
      constructor
      · intro hr
        cases hmd : assocLookup m.tableMetadata table with
        | none =>
          unfold applyEdit
          rw [if_neg hng]
          simp only [htab, hdata, hmd]
        | some metadata =>
          unfold applyEdit
          rw [if_neg hng]
          simp only [htab, hdata, hmd]
          rw [if_pos (Or.inl hr)]
      · intro hr
        unfold setCellToNull
        by_cases hg : m.mode ≠ ViewMode.dataMode ∨ m.focusLeft = true
        · rw [if_pos hg]
        · rw [if_neg hg, if_neg hng]
          cases hmd : assocLookup m.tableMetadata table with
          | none => simp only [htab, hdata, hmd]
          | some metadata =>
            simp only [htab, hdata, hmd]
            rw [if_pos (Or.inl hr)]
    · intro metadata hmeta
      constructor
      · intro hc
        cases hd : assocLookup m.tableData table with
        | none =>
          unfold applyEdit
          rw [if_neg hng]
          simp only [htab, hd, hmeta]
        | some data =>
          unfold applyEdit
          rw [if_neg hng]
          simp only [htab, hd, hmeta]
          rw [if_pos (Or.inr hc)]
      · intro hc
        unfold setCellToNull
        by_cases hg : m.mode ≠ ViewMode.dataMode ∨ m.focusLeft = true
        · rw [if_pos hg]
        · rw [if_neg hg, if_neg hng]
          cases hd : assocLookup m.tableData table with
          | none => simp only [htab, hd, hmeta]
          | some data =>
            simp only [htab, hd, hmeta]
            rw [if_pos (Or.inr hc)]
    · intro metadata cm hmeta hcol hnn
      obtain ⟨hc0, hc1⟩ := listGetInt_bounds hcol
      unfold setCellToNull
      by_cases hg : m.mode ≠ ViewMode.dataMode ∨ m.focusLeft = true
      · rw [if_pos hg]
      · rw [if_neg hg, if_neg hng]
        cases hd : assocLookup m.tableData table with
        | none => simp only [htab, hd, hmeta]
        | some data =>
          simp only [htab, hd, hmeta]
          by_cases hrr : m.cursorRow ≥ (data.length : Int) ∨ m.cursorCol ≥ (metadata.length : Int)
          · rw [if_pos hrr]
          · rw [if_neg hrr]
            simp only [hcol]
            rw [if_neg (by simp [hnn])]
    · intro data metadata cm row hmode hfocus hdata hmeta hrow hcol hnl
      obtain ⟨hr0, hr1⟩ := listGetInt_bounds hrow
      obtain ⟨hc0, hc1⟩ := listGetInt_bounds hcol
      unfold setCellToNull
      rw [if_neg (by simp [hmode, hfocus]), if_neg hng]
      simp only [htab, hdata, hmeta]
      rw [if_neg (by omega)]
      simp only [hcol]
      rw [if_pos hnl]
      simp only [hrow]
      refine ⟨_, rfl, ?_, ?_, ?_, ?_⟩
      · unfold cellAt
        simp only [assocLookup_assocSet_self]
        rw [listGetInt_set_self hrow]
        simp only [Option.map_some']
        rw [rowGet_rowSet_self]
      · intro k hk
        unfold cellAt
        simp only [assocLookup_assocSet_self, hdata]
        rw [listGetInt_set_self hrow, hrow]
        simp only [Option.map_some']
        rw [rowGet_rowSet_ne _ _ _ _ hk]
      · intro r hr k
        unfold cellAt
        simp only [assocLookup_assocSet_self, hdata]
        rw [listGetInt_set_ne _ _ _ hr]
      · intro t ht
        exact assocLookup_assocSet_ne _ _ _ _ ht

/-- C10 witness: the theorem applied to the concrete states `exM4` (nullable
cursor column: only the cursor cell becomes Null) and `exM2` (commit with
the cursor row moved past the row count: state unchanged). -/
theorem commit_total_atomic_witness :
    (∃ td2, setCellToNull exM4 = some { exM4 with tableData := td2 } ∧
      cellAt { exM4 with tableData := td2 } ['u'] 0 ['A'] = some CellValue.null) ∧
    applyEdit { exM2 with cursorRow := 5 } = some { exM2 with cursorRow := 5 } := by
  constructor
  · obtain ⟨td2, hset, hcell, -, -, -⟩ :=
      ((commit_total_atomic exM4).2 ['u'] (by decide)).2.2.2.2.2
        [[(['A'], CellValue.null)]]
        [{ name := ['A'], colType := strVarchar50, nullable := true, key := [] }]
        { name := ['A'], colType := strVarchar50, nullable := true, key := [] }
        [(['A'], CellValue.null)]
        (by decide) (by decide) (by decide) (by decide) (by decide) (by decide) (by decide)
    exact ⟨td2, hset, hcell⟩
  · exact (((commit_total_atomic { exM2 with cursorRow := 5 }).2 ['u'] (by decide)).2.2.1
      [[(['I'], CellValue.int 7)]] (by decide)).1 (by decide)

/-- C2: for every sequence of key events delivered to the sidebar or main
panel handlers — which include the EnsureVisible (cursor move), PageUp,
PageDown, Home and End scroll operations — each panel's viewport offset
satisfies `0 ≤ offset ≤ max 0 (total − visible)` after every call, where the
sidebar total is the table count and the main total is the mode-dependent
content height, provided the panel heights are at least 2 (visible counts
non-negative, per the spec's ViewportState).  In particular, on a sidebar of
50 tables with visible count 10 and offset 0, PageDown sets the offset to 10
and End then sets it to 40. -/
theorem viewport_offset_invariant (sbH mainH : Int) (hsb : 2 ≤ sbH) (hmh : 2 ≤ mainH) :
    (∀ m key, viewportInv sbH mainH m → viewportInv sbH mainH (handleLeftPanelKeys sbH m key)) ∧
    (∀ m key m2, handleRightPanelKeys mainH m key = some m2 →
      viewportInv sbH mainH m → viewportInv sbH mainH m2) ∧
    (∀ pks m m2, panelFold sbH mainH (some m) pks = some m2 →
      viewportInv sbH mainH m → viewportInv sbH mainH m2) ∧
    (handleLeftPanelKeys 12 exSb keyPgDown).sidebarScroll = 10 ∧
    (handleLeftPanelKeys 12 (handleLeftPanelKeys 12 exSb keyPgDown) keyEnd).sidebarScroll = 40 := by
  have hL : ∀ m key, viewportInv sbH mainH m →
      viewportInv sbH mainH (handleLeftPanelKeys sbH m key) := by
    intro m key hi
    obtain ⟨i1, i2, i3, i4, i5⟩ := hi
    unfold handleLeftPanelKeys
    by_cases hk1 : key = keyUp ∨ key = ['k']
    · rw [if_pos hk1]
      by_cases hs : m.selectedIdx > 0
      · rw [if_pos hs]
        exact viewportInv_update_sidebar _ _ ⟨i1, i2, i3, i4, i5⟩
          (by split_ifs <;> omega) (by split_ifs <;> omega)
      · rw [if_neg hs]
        exact ⟨i1, i2, i3, i4, i5⟩
    · rw [if_neg hk1]
      by_cases hk2 : key = keyDown ∨ key = ['j']
      · rw [if_pos hk2]
        by_cases hs : m.selectedIdx < (m.tables.length : Int) - 1
        · rw [if_pos hs]
          exact viewportInv_update_sidebar _ _ ⟨i1, i2, i3, i4, i5⟩
            (by split_ifs <;> omega) (by split_ifs <;> omega)
        · rw [if_neg hs]
          exact ⟨i1, i2, i3, i4, i5⟩
      · rw [if_neg hk2]
        by_cases hk3 : key = keyEnter
        · rw [if_pos hk3]
          exact viewportInv_activate ⟨i1, i2, i3, i4, i5⟩
        · rw [if_neg hk3]
          by_cases hk4 : key = keyPgUp
          · rw [if_pos hk4]
            exact viewportInv_update_sidebar _ _ ⟨i1, i2, i3, i4, i5⟩
              (by split_ifs <;> omega) (by split_ifs <;> omega)
          · rw [if_neg hk4]
            by_cases hk5 : key = keyPgDown
            · rw [if_pos hk5]
              exact viewportInv_update_sidebar _ _ ⟨i1, i2, i3, i4, i5⟩
                (by split_ifs <;> omega) (by split_ifs <;> omega)
            · rw [if_neg hk5]
              by_cases hk6 : key = keyHome
              · rw [if_pos hk6]
                exact viewportInv_update_sidebar _ _ ⟨i1, i2, i3, i4, i5⟩
                  (by omega) (by omega)
              · rw [if_neg hk6]
                by_cases hk7 : key = keyEnd
                · rw [if_pos hk7]
                  exact viewportInv_update_sidebar _ _ ⟨i1, i2, i3, i4, i5⟩
                    (by split_ifs <;> omega) (by split_ifs <;> omega)
                · rw [if_neg hk7]
                  exact ⟨i1, i2, i3, i4, i5⟩
  have hR : ∀ m key m2, handleRightPanelKeys mainH m key = some m2 →
      viewportInv sbH mainH m → viewportInv sbH mainH m2 := by
    intro m key m2 h hi
    obtain ⟨i1, i2, i3, i4, i5⟩ := hi
    unfold handleRightPanelKeys at h
    by_cases hk1 : key = ['d']
    · rw [if_pos hk1] at h
      cases h
      exact viewportInv_update_mode _ ⟨i1, i2, i3, i4, i5⟩
    · rw [if_neg hk1] at h
      by_cases hk2 : key = ['s']
      · rw [if_pos hk2] at h
        cases h
        exact viewportInv_update_mode _ ⟨i1, i2, i3, i4, i5⟩
      · rw [if_neg hk2] at h
        by_cases hk3 : key = ['i']
        · rw [if_pos hk3] at h
          cases h
          exact viewportInv_update_mode _ ⟨i1, i2, i3, i4, i5⟩
        · rw [if_neg hk3] at h
          by_cases hk4 : key = keyPgUp
          · rw [if_pos hk4] at h
            cases h
            exact viewportInv_update_mainScroll _ ⟨i1, i2, i3, i4, i5⟩
              (by split_ifs <;> omega) (by split_ifs <;> omega)
          · rw [if_neg hk4] at h
            by_cases hk5 : key = keyPgDown
            · rw [if_pos hk5] at h
              cases h
              exact viewportInv_update_mainScroll _ ⟨i1, i2, i3, i4, i5⟩
                (by split_ifs <;> omega) (by split_ifs <;> omega)
            · rw [if_neg hk5] at h
              by_cases hk6 : key = keyHome
              · rw [if_pos hk6] at h
                cases h
                exact viewportInv_update_mainScroll _ ⟨i1, i2, i3, i4, i5⟩
                  (by omega) (by omega)
              · rw [if_neg hk6] at h
                by_cases hk7 : key = keyEnd
                · rw [if_pos hk7] at h
                  cases h
                  exact viewportInv_update_mainScroll _ ⟨i1, i2, i3, i4, i5⟩
                    (by split_ifs <;> omega) (by split_ifs <;> omega)
                · rw [if_neg hk7] at h
                  by_cases hmode : m.mode = ViewMode.dataMode
                  · rw [if_pos hmode] at h
                    by_cases hk8 : key = keyUp ∨ key = ['k']
                    · rw [if_pos hk8] at h
                      cases h
                      by_cases hs : m.cursorRow > 0
                      · rw [if_pos hs]
                        exact viewportInv_update_cursor _ _ ⟨i1, i2, i3, i4, i5⟩
                          (by omega) (by split_ifs <;> omega) (by split_ifs <;> omega)
                      · rw [if_neg hs]
                        exact ⟨i1, i2, i3, i4, i5⟩
                    · rw [if_neg hk8] at h
                      by_cases hk9 : key = keyDown ∨ key = ['j']
                      · rw [if_pos hk9] at h
                        cases h
                        by_cases hs : m.cursorRow < maxRowsOf m - 1
                        · rw [if_pos hs]
                          have hrel := maxContentOf_data_of_maxRows_pos hmode (by omega)
                          exact viewportInv_update_cursor _ _ ⟨i1, i2, i3, i4, i5⟩
                            (by omega) (by split_ifs <;> omega) (by split_ifs <;> omega)
                        · rw [if_neg hs]
                          exact ⟨i1, i2, i3, i4, i5⟩
                      · rw [if_neg hk9] at h
                        by_cases hk10 : key = keyArrowLeft ∨ key = ['h']
                        · rw [if_pos hk10] at h
                          cases h
                          by_cases hs : m.cursorCol > 0
                          · rw [if_pos hs]
                            exact viewportInv_update_cursorCol _ ⟨i1, i2, i3, i4, i5⟩
                          · rw [if_neg hs]
                            exact ⟨i1, i2, i3, i4, i5⟩
                        · rw [if_neg hk10] at h
                          by_cases hk11 : key = keyArrowRight ∨ key = ['l']
                          · rw [if_pos hk11] at h
                            cases h
                            by_cases hs : m.cursorCol < maxColsOf m - 1
                            · rw [if_pos hs]
                              exact viewportInv_update_cursorCol _ ⟨i1, i2, i3, i4, i5⟩
                            · rw [if_neg hs]
                              exact ⟨i1, i2, i3, i4, i5⟩
                          · rw [if_neg hk11] at h
                            by_cases hk12 : key = keyEnter ∨ key = ['e']
                            · rw [if_pos hk12] at h
                              exact viewportInv_enterInline h ⟨i1, i2, i3, i4, i5⟩
                            · rw [if_neg hk12] at h
                              by_cases hk13 : key = keyCtrlE
                              · rw [if_pos hk13] at h
                                exact viewportInv_enterModal h ⟨i1, i2, i3, i4, i5⟩
                              · rw [if_neg hk13] at h
                                by_cases hk14 : key = keyCtrlN
                                · rw [if_pos hk14] at h
                                  exact viewportInv_setCellToNull h ⟨i1, i2, i3, i4, i5⟩
                                · rw [if_neg hk14] at h
                                  cases h
                                  exact ⟨i1, i2, i3, i4, i5⟩
                  · rw [if_neg hmode] at h
                    cases h
                    exact ⟨i1, i2, i3, i4, i5⟩
  have hF : ∀ pks m m2, panelFold sbH mainH (some m) pks = some m2 →
      viewportInv sbH mainH m → viewportInv sbH mainH m2 := by
    intro pks
    induction pks with
    | nil =>
      intro m m2 h hi
      have hmm : m = m2 := Option.some.inj h
      rw [← hmm]
      exact hi
    | cons pk pks ih =>
      intro m m2 h hi
      have h2 : panelFold sbH mainH (panelStep sbH mainH m pk) pks = some m2 := h
      cases hs : panelStep sbH mainH m pk with
      | none =>
        rw [hs, panelFold_none] at h2
        exact Option.noConfusion h2
      | some mm =>
        rw [hs] at h2
        have hi2 : viewportInv sbH mainH mm := by
          unfold panelStep at hs
          split at hs
          · have hmm : handleLeftPanelKeys sbH m pk.2 = mm := Option.some.inj hs
            rw [← hmm]
            exact hL m pk.2 hi
          · exact hR m pk.2 mm hs hi
        exact ih mm m2 h2 hi2
  exact ⟨hL, hR, hF, by decide, by decide⟩

/-- C2 witness: the theorem applied at panel heights 12 (visible count 10) to
the concrete 50-table sidebar state, all hypotheses discharged concretely. -/
theorem viewport_offset_invariant_witness :
    viewportInv 12 12 (handleLeftPanelKeys 12 exSb keyPgDown) ∧
    (handleLeftPanelKeys 12 exSb keyPgDown).sidebarScroll = 10 :=
  ⟨(viewport_offset_invariant 12 12 (by decide) (by decide)).1 exSb keyPgDown
      (by unfold viewportInv; decide),
   (viewport_offset_invariant 12 12 (by decide) (by decide)).2.2.2.1⟩

/-- C7: after entering edit mode — inline or modal — and any subsequent
sequence of character-input and backspace key events through the full key
dispatcher, pressing Esc returns the application to Browsing (no edit mode,
no modal) and leaves the entire table data, in particular the target
RowRecord, exactly equal to its value before edit entry. -/
theorem edit_cancel_roundtrip (sbH mainH : Int) (m m1 m2 : AppModel) (keys : List Str)
    (henter : enterInlineEditMode m = some m1 ∨ enterModalEditMode m = some m1)
    (hkeys : ∀ k ∈ keys, isTypingKey k = true)
    (hfold : keysFold sbH mainH (some m1) (keys ++ [keyEsc]) = some m2) :
    m2.tableData = m.tableData ∧ m2.editing = false ∧ m2.showEditModal = false := by
  have h1d : m1.tableData = m.tableData := by
    rcases henter with h | h
    · rcases enterInlineEditMode_shape h with rfl | ⟨buf, fld, rfl⟩ <;> rfl
    · rcases enterModalEditMode_shape h with rfl | ⟨buf, fld, rfl⟩ <;> rfl
  unfold keysFold at hfold
  rw [List.foldl_append] at hfold
  cases hmid : keysFold sbH mainH (some m1) keys with
  | none =>
    unfold keysFold at hmid
    rw [hmid] at hfold
    exact Option.noConfusion hfold
  | some mk =>
    unfold keysFold at hmid
    rw [hmid] at hfold
    have hstep : handleKeyPress sbH mainH mk keyEsc = some m2 := hfold
    have hmkd : mk.tableData = m1.tableData :=
      keysFold_typing_frame sbH mainH keys m1 mk hkeys hmid
    obtain ⟨he, hsm, hd⟩ := handleKeyPress_esc sbH mainH hstep
    exact ⟨by rw [hd, hmkd, h1d], he, hsm⟩

/-- C7 witness: the theorem applied to the concrete state `exM4`, the inline
editor, and the key sequence a, backspace, Esc. -/
theorem edit_cancel_roundtrip_witness :
    exM4e2.tableData = exM4.tableData ∧ exM4e2.editing = false ∧
      exM4e2.showEditModal = false :=
  edit_cancel_roundtrip 12 12 exM4 exM4e1 exM4e2 [['a'], keyBackspace]
    (Or.inl (by decide)) (by decide) (by decide)

/-- C3 counterexample: one column with min width 1 and ideal width 1
(satisfying ideal ≥ min), available width 14, so that the usable width
equals the minimum sum: the allocator returns `[1]`, and the returned width
is below 3 — "every returned width is at least 3" fails on the code (the
floor of 3 is only enforced in the shrink branch, src/run.sh:420–434). -/
theorem calculateDynamicWidths_counterexample :
    (0:Int) ≤ 1 ∧ (1:Int) ≤ 1 ∧
    CalculateDynamicWidths 14 1 [1] [1] = [1] ∧
    ¬ 3 ≤ (CalculateDynamicWidths 14 1 [1] [1]).getD 0 0 := by
  refine ⟨by decide, by decide, by decide, by decide⟩

/-- C3 (amended): for every input with per-column `0 ≤ min ≤ ideal` widths,
the returned slice has length N; every returned width is at least
`min 3 min[i]` — hence at least 3 whenever every min width is at least 3,
but a column whose declared minimum is below 3 can come out below 3;
whenever `sum min ≤ usable` the sum of the returned widths does not exceed
the usable width; and zero columns give the empty result.  (The Go float64
proportional shares are modelled as exact quotients truncated toward zero;
see `growCol`.) -/
theorem calculateDynamicWidths_spec (availableWidth : Int) (numColumns : Nat)
    (minWidths idealWidths : List Int)
    (hlm : minWidths.length = numColumns)
    (hli : idealWidths.length = numColumns)
    (hmi : ∀ i, i < numColumns →
      0 ≤ minWidths.getD i 0 ∧ minWidths.getD i 0 ≤ idealWidths.getD i 0) :
    (CalculateDynamicWidths availableWidth numColumns minWidths idealWidths).length =
      numColumns ∧
    (∀ i, i < numColumns →
      min 3 (minWidths.getD i 0) ≤
        (CalculateDynamicWidths availableWidth numColumns minWidths idealWidths).getD i 0) ∧
    (minWidths.sum ≤ usableWidthOf availableWidth numColumns →
      (CalculateDynamicWidths availableWidth numColumns minWidths idealWidths).sum ≤
        usableWidthOf availableWidth numColumns) ∧
    (numColumns = 0 →
      CalculateDynamicWidths availableWidth numColumns minWidths idealWidths = []) := by
  simp only [CalculateDynamicWidths]
  by_cases h1 : minWidths.sum < usableWidthOf availableWidth numColumns
  · rw [if_pos h1]
    refine ⟨growWidths_length _ _ _ _ hlm hli, ?_, ?_, ?_⟩
    · intro i hi
      have hg := growWidths_getD _ _ _ _ hlm hli hmi h1 i hi
      omega
    · intro hs
      exact growWidths_sum _ _ _ _ hlm hli hmi h1
    · intro h0
      subst h0
      have hmn : minWidths = [] := List.length_eq_zero.mp hlm
      rw [hmn]
      simp [growWidths]
  · rw [if_neg h1]
    by_cases h2 : minWidths.sum > usableWidthOf availableWidth numColumns
    · rw [if_pos h2]
      refine ⟨shrinkWidths_length _ _ _ _ hlm hli, shrinkWidths_getD _ _ _ _ hlm hli, ?_, ?_⟩
      · intro hs
        exact absurd hs (by omega)
      · intro h0
        subst h0
        have hmn : minWidths = [] := List.length_eq_zero.mp hlm
        rw [hmn]
        simp [shrinkWidths]
    · rw [if_neg h2]
      refine ⟨hlm, ?_, ?_, ?_⟩
      · intro i hi
        omega
      · intro hs
        omega
      · intro h0
        subst h0
        exact List.length_eq_zero.mp hlm

/-- C3 witness: the amended theorem applied to two columns of min widths 5
and ideal widths 10 and 20 in an 50-character-wide panel. -/
theorem calculateDynamicWidths_spec_witness :
    (CalculateDynamicWidths 50 2 [5, 5] [10, 20]).length = 2 ∧
    (∀ i, i < 2 → min 3 (([5, 5] : List Int).getD i 0) ≤
      (CalculateDynamicWidths 50 2 [5, 5] [10, 20]).getD i 0) ∧
    (CalculateDynamicWidths 50 2 [5, 5] [10, 20]).sum ≤ usableWidthOf 50 2 := by
  obtain ⟨hlen, hmin, hsum, hnil⟩ := calculateDynamicWidths_spec 50 2 [5, 5] [10, 20]
    (by decide) (by decide) (by decide)
  exact ⟨hlen, hmin, hsum (by decide)⟩

end Dbun
